import Mathlib

/-!
# Verification of the `agent-document-reviewer` analysis engine

This file gives a shallow embedding, in Lean 4, of the document-graph
traversal and scoring engine of the `agent-document-reviewer` repository
(`scripts/analyze_document.js`), and proves/refutes a fixed list of claims
about it.

The repository snapshot contains two revisions of `analyze_document.js`:

* the sandboxed revision (the one shipped with the current `SKILL.md`,
  which documents `--root-dir`, `--no-symlinks`, the
  `maxDepth/maxCount/outsideRoot/symlinks` skip categories, the
  `anchorLinks` metric and the anchor-link score penalty).  It is embedded
  below in the `Sandbox` namespace;
* an earlier/parallel revision (`--scope tree` variant, `circular` skip
  category, no sandbox).  Its `analyzeDocument` metric extractor — the only
  part any claim refers to — is embedded in the `Scripts` namespace.

Modelling conventions:

* Filesystem paths are canonical absolute POSIX paths, modelled as the
  list of their segments (`AbsPath := List String`); `path.resolve` on an
  already canonical absolute path is the identity.
* The filesystem is an abstract structure `FS` providing `existsSync`
  (`exist`), `realpathSync` (`real`), `readFileSync` (`content`) and the
  `lstatSync(..).isSymbolicLink()` probe (`isSymlink`, true exactly when
  `lstat` succeeds and reports a symbolic link).
* JavaScript numbers are modelled as `Nat`/`Int`/`ℚ`.  The score and
  average computations use exact rationals where the source uses IEEE
  doubles; all constants involved (`0.4`, `0.3`, `0.5`, `* 10 / 10`,
  `* 0.2`) are exact at the small integer inputs that occur, and
  `Math.round` is `⌊x + 1/2⌋` (round half toward +∞).
* `console.warn`/`console.error` diagnostics and JSON serialisation are
  side effects outside the result value and are not modelled.
-/

/-- A canonical absolute POSIX path, as its list of segments
(`/a/b` is `["a", "b"]`, the root `/` is `[]`). -/
abbrev AbsPath := List String

/-- Render a canonical path the way Node's `path` module would print it.
Used where the source stores a path into a string-typed `url` field. -/
def pathStr (p : AbsPath) : String :=
  "/" ++ String.intercalate "/" p

/-- Lexical resolution of raw path segments against a canonical base:
empty and `.` segments are skipped, `..` pops (staying at the root when
already there), anything else is pushed.  This is `path.resolve`/
`path.normalize` segment handling on POSIX. -/
def applySegments : AbsPath → List String → AbsPath
  | acc, [] => acc
  | acc, s :: rest =>
    if s = "" ∨ s = "." then applySegments acc rest
    else if s = ".." then applySegments acc.dropLast rest
    else applySegments (acc ++ [s]) rest

/-- `s.startsWith(pre)`. -/
def strStartsWith (s pre : String) : Bool :=
  pre.data.isPrefixOf s.data

/-- Split a character list at every occurrence of a separator character. -/
def splitCharList (c : Char) : List Char → List (List Char)
  | [] => [[]]
  | x :: rest =>
    if x = c then [] :: splitCharList c rest
    else
      match splitCharList c rest with
      | h :: t => (x :: h) :: t
      | [] => [[x]]

/-- `s.split(c)` for a one-character separator. -/
def splitOnChar (c : Char) (s : String) : List String :=
  (splitCharList c s.data).map String.mk

/-- `path.resolve(dir, target)` for a canonical absolute `dir` and a raw
string `target`: an absolute target restarts from the root, a relative
one is applied to `dir`. -/
def pathResolveFrom (dir : AbsPath) (target : String) : AbsPath :=
  if strStartsWith target "/" then applySegments [] (splitOnChar '/' target)
  else applySegments dir (splitOnChar '/' target)

/-- `path.dirname` on a canonical absolute path. -/
def pathDirname (p : AbsPath) : AbsPath := p.dropLast

/-- `path.basename` on a canonical absolute path. -/
def pathBasename (p : AbsPath) : String := (p.getLast?).getD ""

/-- Strip the longest common prefix of two segment lists. -/
def stripCommonPrefix : AbsPath → AbsPath → AbsPath × AbsPath
  | a :: as, b :: bs =>
    if a = b then stripCommonPrefix as bs else (a :: as, b :: bs)
  | as, bs => (as, bs)

/-- `path.relative(fromP, toP)` for two canonical absolute paths: one `..`
segment per remaining `fromP` segment, then the remaining `toP` segments. -/
def pathRelative (fromP toP : AbsPath) : List String :=
  let (f, t) := stripCommonPrefix fromP toP
  (f.map fun _ => "..") ++ t

/-- `isRealPathWithinRoot` from the source: the relative path from the
root to the candidate is `''` (equal), or does not leave the root.  For
two canonical absolute POSIX paths `path.relative` never returns an
absolute path, so the source's `path.isAbsolute` disjunct is vacuous; the
`'..'` / `'../...'` cases are exactly a leading `..` segment. -/
def isRealPathWithinRoot (realPath rootRealPath : AbsPath) : Bool :=
  match pathRelative rootRealPath realPath with
  | [] => true
  | ".." :: _ => false
  | _ => true

/-- The lexical fast-path escape test in `extractInternalLinks`:
`relativePath === '..' || relativePath.startsWith('../') ||
path.isAbsolute(relativePath)` (the last disjunct again vacuous on
POSIX canonical inputs).  Note it has no special `''` case: an exact
match with the root is *not* an escape. -/
def pathEscapesRoot (rootDir resolvedPath : AbsPath) : Bool :=
  match pathRelative rootDir resolvedPath with
  | ".." :: _ => true
  | _ => false

/-! ## String utilities shared by the link extractor and metric extractor

The JavaScript string builtins (`trim`, `startsWith`, `split`,
`toLowerCase`, ...) are modelled directly over character lists. -/

/-- `s.trim()`: drop leading and trailing whitespace. -/
def jsTrim (s : String) : String :=
  String.mk (((s.data.dropWhile Char.isWhitespace).reverse.dropWhile Char.isWhitespace).reverse)

/-- `s.toLowerCase()` (ASCII case folding, which covers the `\w`
phrases the redundancy detector feeds it). -/
def strToLower (s : String) : String :=
  String.mk (s.data.map Char.toLower)

/-- Drop one leading occurrence of a character. -/
def dropLeadChar (c : Char) : List Char → List Char
  | [] => []
  | x :: rest => if x = c then rest else x :: rest

/-- `rawUrl.replace(/^<|>$/g, '')` (applied after trimming): strip at
most one leading `<` and one trailing `>`. -/
def stripAngles (s : String) : String :=
  String.mk ((dropLeadChar '>' (dropLeadChar '<' s.data).reverse).reverse)

/-- The character class `[a-zA-Z0-9+.-]` of the scheme regex. -/
def isSchemeChar (c : Char) : Bool :=
  c.isAlphanum || c = '+' || c = '.' || c = '-'

/-- Tail of the scheme test: zero or more scheme characters followed by a
colon. -/
def schemeTail : List Char → Bool
  | [] => false
  | c :: cs => if c = ':' then true else if isSchemeChar c then schemeTail cs else false

/-- `hasScheme`: the regex test `/^[a-zA-Z][a-zA-Z0-9+.-]*:/.test(url)`. -/
def hasScheme (s : String) : Bool :=
  match s.data with
  | [] => false
  | c :: cs => c.isAlpha && schemeTail cs

/-- `s.split(c)[0]`: the prefix before the first occurrence of `c`. -/
def takeUntilChar (c : Char) (s : String) : String :=
  String.mk (s.data.takeWhile (· ≠ c))

/-- `s.split(/\s+/)[0]` for an already trimmed `s`: the first maximal
whitespace-free token. -/
def firstToken (s : String) : String :=
  String.mk (s.data.takeWhile fun c => ¬ c.isWhitespace)

/-- `normalizeMarkdownLinkTarget` from the source: trim and strip angle
brackets; anchors (`#...`), `http(s)://` targets and any
scheme-qualified target normalize to `null`; otherwise drop a trailing
`#fragment` and `?query`, take the first whitespace-delimited token, and
fail on an empty remainder. -/
def normalizeMarkdownLinkTarget (rawUrl : String) : Option String :=
  let trimmed := stripAngles (jsTrim rawUrl)
  if strStartsWith trimmed "#" then none
  else if strStartsWith trimmed "http://" || strStartsWith trimmed "https://" then none
  else if hasScheme trimmed then none
  else
    let withoutAnchor := takeUntilChar '#' trimmed
    let withoutQuery := takeUntilChar '?' withoutAnchor
    let tok := firstToken (jsTrim withoutQuery)
    if tok = "" then none else some tok

/-- One attempt of the link regex `\[([^\]]+)\]\(([^)]+)\)` at a position
whose `[` has already been consumed: a non-empty run of non-`]`
characters, `](`, a non-empty run of non-`)` characters, `)`.  Returns
the captured target (`match[2]`) and the remaining input after the
match. -/
def tryLink (rest : List Char) : Option (String × List Char) :=
  match rest.takeWhile (· ≠ ']'), rest.dropWhile (· ≠ ']') with
  | _ :: _, ']' :: '(' :: afterParen =>
    match afterParen.takeWhile (· ≠ ')'), afterParen.dropWhile (· ≠ ')') with
    | t :: ts, ')' :: restAfter => some (String.mk (t :: ts), restAfter)
    | _, _ => none
  | _, _ => none

/-- Global scan of `/\[([^\]]+)\]\(([^)]+)\)/g` via repeated `exec`:
at a `[` try a match; on success emit the captured target and continue
after the match, on failure advance one character.  The extra fuel
argument (always at least the input length, which every step shrinks) is
only there to make the recursion structural; the zero case is
unreachable from `linkTargets`. -/
def linkTargetsAux : Nat → List Char → List String
  | _, [] => []
  | 0, _ :: _ => []
  | fuel + 1, c :: rest =>
    if c = '[' then
      match tryLink rest with
      | some (t, restAfter) => t :: linkTargetsAux fuel restAfter
      | none => linkTargetsAux fuel rest
    else linkTargetsAux fuel rest

/-- All `match[2]` captures of the markdown inline-link regex over a
string, in order. -/
def linkTargets (content : String) : List String :=
  linkTargetsAux content.data.length content.data

/-- `content.split('\n')`. -/
def splitLines (content : String) : List String :=
  splitOnChar '\n' content

/-- `content.split(/\s+/).filter(w => w.length > 0).length`: the number of
maximal whitespace-free runs.  The Boolean flag records whether the scan
is currently inside such a run. -/
def countTokens : List Char → Bool → Nat
  | [], _ => 0
  | c :: cs, inTok =>
    if c.isWhitespace then countTokens cs false
    else (if inTok then 0 else 1) + countTokens cs true

/-- Word count of a document (see `countTokens`). -/
def countWords (s : String) : Nat :=
  countTokens s.data false

/-- The heading regex `/^(#+)\s+(.+)$/` applied to an already trimmed
line: a non-empty run of `#`, a non-empty whitespace run, a non-empty
remainder.  Returns `(depth, title)`.  (A trimmed line has no trailing
whitespace, so the greedy `\s+`/`(.+)` split is exactly
maximal-whitespace-run / remainder.) -/
def parseHeader (trimmed : String) : Option (Nat × String) :=
  let hashes := trimmed.data.takeWhile (· = '#')
  let afterHashes := trimmed.data.dropWhile (· = '#')
  let ws := afterHashes.takeWhile (·.isWhitespace)
  let title := afterHashes.dropWhile (·.isWhitespace)
  if 0 < hashes.length ∧ 0 < ws.length ∧ 0 < title.length then
    some (hashes.length, String.mk title)
  else none

/-- The `\w` class of the redundancy regex. -/
def isWordChar (c : Char) : Bool :=
  c.isAlphanum || c = '_'

/-- Split a character list into maximal runs of word / non-word
characters, each tagged with whether it is a word run. -/
def charRuns : Nat → List Char → List (Bool × List Char)
  | _, [] => []
  | 0, _ :: _ => []
  | fuel + 1, c :: rest =>
    (isWordChar c, c :: rest.takeWhile (fun x => isWordChar x = isWordChar c)) ::
      charRuns fuel (rest.dropWhile (fun x => isWordChar x = isWordChar c))

/-- Non-overlapping matches of `/\b\w+\s+\w+\s+\w+\b/g` over the run
decomposition: three word runs separated by two all-whitespace separator
runs.  On failure the scan restarts at the next word run (which is what
the regex engine's position-by-position retry reaches), on success it
continues after the third word. -/
def triplesFromRuns : Nat → List (Bool × List Char) → List String
  | _, [] => []
  | 0, _ :: _ => []
  | fuel + 1, (false, _) :: rest => triplesFromRuns fuel rest
  | fuel + 1, (true, w1) :: (false, s1) :: (true, w2) :: (false, s2) :: (true, w3) :: rest3 =>
    if s1.all Char.isWhitespace && s2.all Char.isWhitespace then
      String.mk (w1 ++ s1 ++ w2 ++ s2 ++ w3) :: triplesFromRuns fuel rest3
    else
      triplesFromRuns fuel ((false, s1) :: (true, w2) :: (false, s2) :: (true, w3) :: rest3)
  | fuel + 1, (true, _) :: rest => triplesFromRuns fuel rest

/-- `phraseCount[normalized] = (phraseCount[normalized] || 0) + 1`,
keeping first-insertion order (JS object property order for
non-index string keys). -/
def bumpCount (k : String) : List (String × Nat) → List (String × Nat)
  | [] => [(k, 1)]
  | (k2, n) :: rest =>
    if k2 = k then (k2, n + 1) :: rest else (k2, n) :: bumpCount k rest

/-- Count case-folded phrases in occurrence order. -/
def phraseCounts (phrases : List String) : List (String × Nat) :=
  phrases.foldl (fun acc ph => bumpCount (strToLower ph) acc) []

/-- Stable insertion for the descending-by-count sort
(`.sort((a, b) => b[1] - a[1])`, V8 sort being stable): an element goes
after all existing elements with a count ≥ its own. -/
def insertByCountDesc (x : String × Nat) : List (String × Nat) → List (String × Nat)
  | [] => [x]
  | y :: ys => if x.2 ≤ y.2 then y :: insertByCountDesc x ys else x :: y :: ys

/-- Stable sort, descending by count. -/
def sortByCountDesc (l : List (String × Nat)) : List (String × Nat) :=
  l.foldl (fun acc x => insertByCountDesc x acc) []

/-- The redundancy detector: 3-word windows (`/\b\w+\s+\w+\s+\w+\b/g`,
non-overlapping), lower-cased and counted, kept when occurring ≥ 3
times, sorted by descending count, top five. -/
def redundancyOf (content : String) : List (String × Nat) :=
  (sortByCountDesc
    ((phraseCounts
      (triplesFromRuns content.data.length (charRuns content.data.length content.data))).filter
      fun kv => 3 ≤ kv.2)).take 5

/-- `Math.round(n / 10)` for an integer numerator `n`:
`Math.round q = ⌊q + 1/2⌋` (round half toward +∞), and
`⌊n/10 + 1/2⌋ = ⌊(n + 5)/10⌋`. -/
def jsRoundTenth (n : Int) : Int :=
  (n + 5).fdiv 10

/-- `linkRatio >= 0.5` where
`linkRatio = totalLinks > 0 ? internalLinks / totalLinks : 0`:
for positive `totalLinks` the exact division comparison is
`2 * internalLinks ≥ totalLinks`, and for `totalLinks = 0` the ratio is
0, below the threshold. -/
def ratioAtLeastHalf (internal total : Nat) : Bool :=
  if 0 < total then decide (total ≤ 2 * internal) else false

/-- `[...new Set(values)]`: deduplicate keeping the first occurrence of
each element, in order. -/
def dedupFirstAux {α} [DecidableEq α] (seen : List α) : List α → List α
  | [] => []
  | x :: xs =>
    if x ∈ seen then dedupFirstAux seen xs else x :: dedupFirstAux (x :: seen) xs

/-- `uniqStrings` from the source. -/
def dedupFirst {α} [DecidableEq α] (l : List α) : List α :=
  dedupFirstAux [] l

/-! ## The abstract filesystem -/

/-- The filesystem operations the analyzer performs.  `real` is
meaningful on paths for which `exist` is true (the source only calls
`realpathSync` after a successful `existsSync`); `isSymlink p` is true
exactly when `lstatSync(p)` succeeds and reports a symbolic link. -/
structure FS where
  exist : AbsPath → Bool
  real : AbsPath → AbsPath
  content : AbsPath → String
  isSymlink : AbsPath → Bool

/-! ## The sandboxed analyzer (`Sandbox` namespace)

Embedding of the sandboxed revision of `analyze_document.js` (the one the
current `SKILL.md` documents): `analyzeDocument`, `evaluateMetrics`,
`extractInternalLinks`, `analyzeWithLinks` and the link-following branch
of `main`. -/

namespace Sandbox

/-- An entry of `metrics.sections`. -/
structure SectionInfo where
  depth : Nat
  title : String
  lineNumber : Nat
deriving Repr, DecidableEq

/-- The full `metrics` object of the sandboxed `analyzeDocument`. -/
structure Metrics where
  totalLines : Nat
  nonEmptyLines : Nat
  wordCount : Nat
  sections : List SectionInfo
  maxDepth : Nat
  sectionCount : Nat
  internalLinks : Nat
  externalLinks : Nat
  anchorLinks : Nat
  totalLinks : Nat
  frontLoadedContent : Nat
  avgSectionLength : Nat
  redundancyIndicators : List (String × Nat)
deriving Repr, DecidableEq

/-- The accumulator of the `lines.forEach` loop: the fields it mutates. -/
structure LineAcc where
  sections : List SectionInfo
  maxDepth : Nat
  sectionCount : Nat
  internalLinks : Nat
  externalLinks : Nat
  anchorLinks : Nat
  totalLinks : Nat
deriving Repr, DecidableEq

/-- Classification of one link match inside the line loop: count it,
then: anchor if the raw target starts with `#`; otherwise internal if it
normalizes to a local target, external if not. -/
def linkStep (a : LineAcc) (url : String) : LineAcc :=
  let a1 := { a with totalLinks := a.totalLinks + 1 }
  if strStartsWith url "#" then { a1 with anchorLinks := a1.anchorLinks + 1 }
  else
    match normalizeMarkdownLinkTarget url with
    | some _ => { a1 with internalLinks := a1.internalLinks + 1 }
    | none => { a1 with externalLinks := a1.externalLinks + 1 }

/-- One iteration of `lines.forEach((line, index) => ...)`: heading
detection on the trimmed line, then link matches of the trimmed line. -/
def lineStep (acc : LineAcc) (li : Nat × String) : LineAcc :=
  let trimmed := jsTrim li.2
  let acc1 :=
    match parseHeader trimmed with
    | some dt =>
      { acc with
        sections := acc.sections ++ [⟨dt.1, dt.2, li.1 + 1⟩],
        maxDepth := max acc.maxDepth dt.1,
        sectionCount := acc.sectionCount + 1 }
    | none => acc
  (linkTargets trimmed).foldl linkStep acc1

/-- `analyzeDocument(filePath)`: read the file and compute all metrics.
`frontSection = Math.floor(lines.length * 0.2)` is `lines.length / 5`
(the double computation `n * 0.2` floors to `n / 5` exactly for every
document-sized `n`), and `avgSectionLength` is the floored integer
division of the source. -/
def analyzeDocument (fs : FS) (filePath : AbsPath) : Metrics :=
  let content := fs.content filePath
  let lines := splitLines content
  let acc := lines.enum.foldl lineStep ⟨[], 0, 0, 0, 0, 0, 0⟩
  let frontSection := lines.length / 5
  { totalLines := lines.length,
    nonEmptyLines := (lines.filter fun l => 0 < (jsTrim l).length).length,
    wordCount := countWords content,
    sections := acc.sections,
    maxDepth := acc.maxDepth,
    sectionCount := acc.sectionCount,
    internalLinks := acc.internalLinks,
    externalLinks := acc.externalLinks,
    anchorLinks := acc.anchorLinks,
    totalLinks := acc.totalLinks,
    frontLoadedContent := ((lines.take frontSection).filter fun l => 0 < (jsTrim l).length).length,
    avgSectionLength := if 0 < acc.sectionCount then lines.length / acc.sectionCount else 0,
    redundancyIndicators := redundancyOf content }

/-- The `scores` object.  The `structure` field of the source is named
`structureScore` here (`structure` is a Lean keyword). -/
structure Scores where
  lineCount : Int
  structureScore : Int
  progressiveDisclosure : Int
  overall : Int
deriving Repr, DecidableEq

/-- The result of `evaluateMetrics`. -/
structure ScoreResult where
  scores : Scores
  feedback : List String
deriving Repr, DecidableEq

/-- Line-count tier: 10 / 7 / 4 / 2 at ≤200 / ≤500 / ≤800 / more. -/
def lineCountEval (m : Metrics) : Int × List String :=
  if m.totalLines ≤ 200 then
    (10, ["✅ Document length is excellent (≤200 lines)"])
  else if m.totalLines ≤ 500 then
    (7, ["⚠️  Document length is acceptable but could be shorter (200-500 lines)"])
  else if m.totalLines ≤ 800 then
    (4, ["⚠️  Document is getting long (500-800 lines) - consider splitting content"])
  else
    (2, ["❌ Document is too long (>800 lines) - high risk of AI agent missing instructions"])

/-- Structure score: start at 10; −3 for depth > 4; −3 for > 30 sections
(else −1 for > 20); −2 for a positive average section length < 15;
floored at 0. -/
def structureEval (m : Metrics) : Int × List String :=
  let s0 : Int := 10
  let (s1, fb1) :=
    if 4 < m.maxDepth then
      (s0 - 3, ["⚠️  Deep nesting detected (depth: " ++ toString m.maxDepth ++ ") - consider flattening"])
    else if m.maxDepth ≤ 3 then (s0, ["✅ Good heading depth (≤3)"])
    else (s0, [])
  let (s2, fb2) :=
    if 30 < m.sectionCount then
      (s1 - 3, ["⚠️  Many sections (" ++ toString m.sectionCount ++ ") - consider consolidating"])
    else if 20 < m.sectionCount then
      (s1 - 1, ["⚠️  High section count (" ++ toString m.sectionCount ++ ")"])
    else (s1, [])
  let (s3, fb3) :=
    if 0 < m.avgSectionLength ∧ m.avgSectionLength < 15 then
      (s2 - 2, ["⚠️  Sections are very short on average - might indicate over-fragmentation"])
    else (s2, [])
  (max 0 s3, fb1 ++ fb2 ++ fb3)

/-- The progressive-disclosure tier logic (before the anchor penalty):
10 for ≤200 lines; for 201–500 lines 10 / 7 / 6 and for more 10 / 6 / 3
depending on having ≥3 internal links with ratio ≥ 0.5, some internal
links, or none. -/
def pdTierEval (m : Metrics) : Int × List String :=
  if m.totalLines ≤ 200 then
    (10,
      if 0 < m.internalLinks then ["✅ Good use of internal links for progressive disclosure"]
      else ["✅ Document is short enough that progressive disclosure is optional"])
  else if m.totalLines ≤ 500 then
    if 3 ≤ m.internalLinks ∧ ratioAtLeastHalf m.internalLinks m.totalLinks = true then
      (10, ["✅ Good use of internal links for progressive disclosure"])
    else if 0 < m.internalLinks then
      (7, ["⚠️  Some internal links present, but could be improved"])
    else
      (6, ["⚠️  No internal links detected - acceptable for small scope, otherwise consider links or tool-supported scoping (e.g., nested AGENTS.md)"])
  else
    if 3 ≤ m.internalLinks ∧ ratioAtLeastHalf m.internalLinks m.totalLinks = true then
      (10, ["✅ Good use of internal links for progressive disclosure"])
    else if 0 < m.internalLinks then
      (6, ["⚠️  Some internal links present, but could be improved"])
    else
      (3, ["❌ No internal links detected - consider splitting content via links or tool-supported scoping (e.g., nested AGENTS.md)"])

/-- `evaluateMetrics`: the three sub-scores, the anchor-link penalty
(−2, floored at 0, applied after the tier), the redundancy advisory
string, and the weighted rounded overall score. -/
def evaluateMetrics (m : Metrics) : ScoreResult :=
  let (lineCountScore, fbLine) := lineCountEval m
  let (structureScore, fbStruct) := structureEval m
  let (pdTier, fbPd) := pdTierEval m
  let (pd, fbAnchor) :=
    if 0 < m.anchorLinks then
      (max 0 (pdTier - 2),
        ["❌ Anchor links (#...) are meaningless for LLMs - use separate files instead (found " ++ toString m.anchorLinks ++ ")"])
    else (pdTier, [])
  let fbRed :=
    if 0 < m.redundancyIndicators.length then
      ["⚠️  Potential redundancy detected - review repeated phrases"]
    else []
  -- `Math.round(lineCount * 0.4 + structure * 0.3 + pd * 0.3)`:
  -- the weighted sum is `(4*lc + 3*st + 3*pd) / 10` exactly.
  let overall := jsRoundTenth (4 * lineCountScore + 3 * structureScore + 3 * pd)
  { scores := ⟨lineCountScore, structureScore, pd, overall⟩,
    feedback := fbLine ++ fbStruct ++ fbPd ++ fbAnchor ++ fbRed }

/-- An entry of `skipped.outsideRoot` / `skipped.symlinks`:
`{url, resolvedPath}`. -/
structure SkipEntry where
  url : String
  resolvedPath : AbsPath
deriving Repr, DecidableEq

/-- The return value of `extractInternalLinks`. -/
structure ExtractResult where
  valid : List AbsPath
  outsideRoot : List SkipEntry
  symlinks : List SkipEntry
deriving Repr, DecidableEq

/-- One iteration of the link-extraction loop: normalize the raw target
(`continue` on `null`), resolve against the file's directory, apply the
optional best-effort `lstat` symlink pre-check, then the lexical
root-escape fast path, and otherwise record a valid candidate. -/
def extractStep (fs : FS) (fileDir : AbsPath) (rootDir : Option AbsPath) (noSymlinks : Bool)
    (acc : ExtractResult) (rawUrl : String) : ExtractResult :=
  match normalizeMarkdownLinkTarget rawUrl with
  | none => acc
  | some cleanUrl =>
    let resolvedPath := pathResolveFrom fileDir cleanUrl
    if noSymlinks ∧ fs.isSymlink resolvedPath then
      { acc with symlinks := acc.symlinks ++ [⟨cleanUrl, resolvedPath⟩] }
    else
      match rootDir with
      | some rd =>
        if pathEscapesRoot rd resolvedPath then
          { acc with outsideRoot := acc.outsideRoot ++ [⟨cleanUrl, resolvedPath⟩] }
        else { acc with valid := acc.valid ++ [resolvedPath] }
      | none => { acc with valid := acc.valid ++ [resolvedPath] }

/-- `extractInternalLinks(filePath, content, rootDir, noSymlinks)`:
process every regex match in order, then deduplicate the valid list
(`uniqStrings`). -/
def extractInternalLinks (fs : FS) (filePath : AbsPath) (content : String)
    (rootDir : Option AbsPath) (noSymlinks : Bool) : ExtractResult :=
  let raw := (linkTargets content).foldl (extractStep fs (pathDirname filePath) rootDir noSymlinks) ⟨[], [], []⟩
  { raw with valid := dedupFirst raw.valid }

/-- The `skipped` object of a traversal result. -/
structure Skipped where
  maxDepth : List AbsPath
  maxCount : List AbsPath
  outsideRoot : List SkipEntry
  symlinks : List SkipEntry
deriving Repr, DecidableEq

/-- The `summary` object of a traversal result. -/
structure Summary where
  totalAnalyzed : Nat
  averageScore : ℚ
  worstScore : Int
  worstFile : Option AbsPath
deriving Repr, DecidableEq

/-- The `metrics` payload of an analyzed entry under `--format summary`:
the condensed projection without the `sections` array. -/
structure CondensedMetrics where
  totalLines : Nat
  nonEmptyLines : Nat
  wordCount : Nat
  sectionCount : Nat
  maxDepth : Nat
  internalLinks : Nat
  externalLinks : Nat
  anchorLinks : Nat
  totalLinks : Nat
  frontLoadedContent : Nat
  avgSectionLength : Nat
  redundancyCount : Nat
deriving Repr, DecidableEq

/-- The summary projection of the metrics. -/
def condense (m : Metrics) : CondensedMetrics :=
  ⟨m.totalLines, m.nonEmptyLines, m.wordCount, m.sectionCount, m.maxDepth,
    m.internalLinks, m.externalLinks, m.anchorLinks, m.totalLinks,
    m.frontLoadedContent, m.avgSectionLength, m.redundancyIndicators.length⟩

/-- The format-dependent metrics payload of an analyzed entry. -/
inductive MetricsOut where
  | full (m : Metrics)
  | condensed (m : CondensedMetrics)
deriving Repr, DecidableEq

/-- One entry of the `analyzed` list. -/
structure FileResult where
  file : String
  fullPath : AbsPath
  depth : Nat
  metrics : MetricsOut
  evaluation : ScoreResult
deriving Repr, DecidableEq

/-- The accumulated traversal result. -/
structure TravResult where
  analyzed : List FileResult
  notFound : List AbsPath
  skipped : Skipped
  summary : Summary
deriving Repr, DecidableEq

/-- The freshly initialised result object of `analyzeWithLinks`. -/
def emptyResult : TravResult :=
  { analyzed := [], notFound := [],
    skipped := ⟨[], [], [], []⟩,
    summary := ⟨0, 0, 10, none⟩ }

/-- The traversal options threaded through `analyzeWithLinks`. -/
structure AwlConfig where
  maxDepth : Nat
  maxCount : Nat
  summaryFmt : Bool
  rootDir : Option AbsPath
  rootRealPath : Option AbsPath
  noSymlinks : Bool
deriving Repr, DecidableEq

/-- The `fileResult` record pushed onto `analyzed`. -/
def mkFileResult (fs : FS) (cfg : AwlConfig) (p : AbsPath) (d : Nat) : FileResult :=
  let metrics := analyzeDocument fs p
  { file := pathBasename p,
    fullPath := p,
    depth := d,
    metrics := if cfg.summaryFmt then .condensed (condense metrics) else .full metrics,
    evaluation := evaluateMetrics metrics }

/-- The result after analyzing the current file: push the entry, bump
`totalAnalyzed`, and apply the strict-`<` worst-score update against the
initial summary. -/
def baseResult (fs : FS) (cfg : AwlConfig) (p : AbsPath) (d : Nat) : TravResult :=
  let fr := mkFileResult fs cfg p d
  let score := fr.evaluation.scores.overall
  { emptyResult with
    analyzed := [fr],
    summary :=
      { totalAnalyzed := emptyResult.summary.totalAnalyzed + 1,
        averageScore := emptyResult.summary.averageScore,
        worstScore :=
          if score < emptyResult.summary.worstScore then score
          else emptyResult.summary.worstScore,
        worstFile :=
          if score < emptyResult.summary.worstScore then some p
          else emptyResult.summary.worstFile } }

/-- The result merge of the recursion loop (`// Merge results`): append
every collection, recompute `totalAnalyzed` from the merged `analyzed`,
and take the child's worst score/file on strict improvement. -/
def mergeResult (acc child : TravResult) : TravResult :=
  let analyzed := acc.analyzed ++ child.analyzed
  { analyzed := analyzed,
    notFound := acc.notFound ++ child.notFound,
    skipped :=
      { maxDepth := acc.skipped.maxDepth ++ child.skipped.maxDepth,
        maxCount := acc.skipped.maxCount ++ child.skipped.maxCount,
        outsideRoot := acc.skipped.outsideRoot ++ child.skipped.outsideRoot,
        symlinks := acc.skipped.symlinks ++ child.skipped.symlinks },
    summary :=
      { totalAnalyzed := analyzed.length,
        averageScore := acc.summary.averageScore,
        worstScore :=
          if child.summary.worstScore < acc.summary.worstScore then child.summary.worstScore
          else acc.summary.worstScore,
        worstFile :=
          if child.summary.worstScore < acc.summary.worstScore then child.summary.worstFile
          else acc.summary.worstFile } }

/-- The `for (const linkedPath of internalLinks)` loop: a candidate
arriving when the visited set has reached `maxCount` is recorded under
`skipped.maxCount` without recursing; otherwise recurse and merge. -/
def linkLoop (step : AbsPath → List AbsPath → TravResult × List AbsPath) (maxCount : Nat) :
    List AbsPath → TravResult → List AbsPath → TravResult × List AbsPath
  | [], acc, v => (acc, v)
  | l :: ls, acc, v =>
    if maxCount ≤ v.length then
      linkLoop step maxCount ls { acc with skipped.maxCount := acc.skipped.maxCount ++ [l] } v
    else
      let cv := step l v
      linkLoop step maxCount ls (mergeResult acc cv.1) cv.2

/-- Push the blocked links reported by `extractInternalLinks` into the
result (`// Track blocked links`). -/
def addLinkSkips (r : TravResult) (lr : ExtractResult) : TravResult :=
  { r with
    skipped.outsideRoot := r.skipped.outsideRoot ++ lr.outsideRoot,
    skipped.symlinks := r.skipped.symlinks ++ lr.symlinks }

/-- `totalScore = analyzed.reduce((sum, item) => sum + overall, 0)`. -/
def sumOverall (l : List FileResult) : Int :=
  l.foldl (fun s e => s + e.evaluation.scores.overall) 0

/-- The average-score formula
`Math.round(totalScore / analyzed.length * 10) / 10`:
`Math.round(10 * total / len) = ⌊10 * total / len + 1/2⌋ =
⌊(20 * total + len) / (2 * len)⌋` for positive `len` (and this is only
evaluated behind a positive-length guard). -/
def averageOf (l : List FileResult) : ℚ :=
  (((20 * sumOverall l + l.length).fdiv (2 * l.length) : Int) : ℚ) / 10

/-- `// Calculate average score` at the end of `analyzeWithLinks`. -/
def finishAverage (r : TravResult) : TravResult :=
  if 0 < r.analyzed.length then
    { r with summary.averageScore := averageOf r.analyzed }
  else r

/-- The root-level deduplication (`// Deduplicate: Remove files from
skipped arrays if they were successfully analyzed`), applied only at
`currentDepth == 0`. -/
def rootScopeFilter (r : TravResult) : TravResult :=
  let ap := r.analyzed.map (·.fullPath)
  { r with
    skipped.maxDepth := r.skipped.maxDepth.filter fun q => decide (q ∉ ap),
    skipped.maxCount := r.skipped.maxCount.filter fun q => decide (q ∉ ap) }

/-- The security-sandbox gate of `analyzeWithLinks`: with a configured
root, reject a candidate whose real path is not within the root's real
path (`skipped.outsideRoot`), then, under `--no-symlinks`, a candidate
whose real path differs from its resolved path (`skipped.symlinks`). -/
def sandboxGate (fs : FS) (cfg : AwlConfig) (p : AbsPath) : Option TravResult :=
  match cfg.rootDir with
  | none => none
  | some rd =>
    let effRoot := cfg.rootRealPath.getD (fs.real rd)
    let fileReal := fs.real p
    if isRealPathWithinRoot fileReal effRoot = false then
      some { emptyResult with skipped.outsideRoot := [⟨pathStr p, p⟩] }
    else if cfg.noSymlinks ∧ fileReal ≠ p then
      some { emptyResult with skipped.symlinks := [⟨pathStr p, p⟩] }
    else none

/-- The body of one `analyzeWithLinks(filePath, options)` activation
past all guards, with the recursive call abstracted: analysis of the
current file, the depth-dependent link handling, the average
recomputation, and the root-level skip deduplication. -/
def awlCore (fs : FS) (cfg : AwlConfig)
    (recurse : AbsPath → List AbsPath → TravResult × List AbsPath)
    (p : AbsPath) (d : Nat) (v : List AbsPath) : TravResult × List AbsPath :=
  let v1 := p :: v
  let content := fs.content p
  let res0 := baseResult fs cfg p d
  let step2 :=
    if d < cfg.maxDepth then
      let lr := extractInternalLinks fs p content cfg.rootDir cfg.noSymlinks
      linkLoop recurse cfg.maxCount lr.valid (addLinkSkips res0 lr) v1
    else if d = cfg.maxDepth then
      let lr := extractInternalLinks fs p content cfg.rootDir cfg.noSymlinks
      let rA := addLinkSkips res0 lr
      ({ rA with
          skipped.maxDepth :=
            rA.skipped.maxDepth ++ lr.valid.filter fun l => decide (l ∉ v1) }, v1)
    else (res0, v1)
  let res2 := finishAverage step2.1
  (if d = 0 then rootScopeFilter res2 else res2, step2.2)

/-- The guard cascade of one `analyzeWithLinks` activation: visited →
count budget → existence → sandbox, then the analysis body `awlCore`. -/
def awlStep (fs : FS) (cfg : AwlConfig)
    (recurse : AbsPath → List AbsPath → TravResult × List AbsPath)
    (p : AbsPath) (d : Nat) (v : List AbsPath) : TravResult × List AbsPath :=
  if p ∈ v then (emptyResult, v)
  else if cfg.maxCount ≤ v.length then ({ emptyResult with skipped.maxCount := [p] }, v)
  else if fs.exist p = false then ({ emptyResult with notFound := [p] }, v)
  else
    match sandboxGate fs cfg p with
    | some r => (r, v)
    | none => awlCore fs cfg recurse p d v

/-- `analyzeWithLinks` with an explicit bound on the remaining recursion
depth.  The source recursion is bounded by `maxDepth - currentDepth`
(links are only followed while `currentDepth < maxDepth`), so a call at
depth `d` never needs more than `maxDepth - d + 1` activations; the
fuel-exhausted base case is unreachable from `analyzeWithLinks` below. -/
def awl (fs : FS) (cfg : AwlConfig) : Nat → AbsPath → Nat → List AbsPath → TravResult × List AbsPath
  | 0, _, _, v => (emptyResult, v)
  | fuel + 1, p, d, v =>
    awlStep fs cfg (fun l v2 => awl fs cfg fuel l (d + 1) v2) p d v

/-- `analyzeWithLinks(filePath, {..., visited, currentDepth: 0})`. -/
def analyzeWithLinks (fs : FS) (cfg : AwlConfig) (p : AbsPath) (v : List AbsPath) :
    TravResult × List AbsPath :=
  awl fs cfg (cfg.maxDepth + 1) p 0 v

/-- The per-entry-point merge of `main` (`// Merge results` over
`allResults`): append all collections and apply the strict-`<` worst
update; totals and averages are recomputed afterwards. -/
def mainMerge (acc child : TravResult) : TravResult :=
  { analyzed := acc.analyzed ++ child.analyzed,
    notFound := acc.notFound ++ child.notFound,
    skipped :=
      { maxDepth := acc.skipped.maxDepth ++ child.skipped.maxDepth,
        maxCount := acc.skipped.maxCount ++ child.skipped.maxCount,
        outsideRoot := acc.skipped.outsideRoot ++ child.skipped.outsideRoot,
        symlinks := acc.skipped.symlinks ++ child.skipped.symlinks },
    summary :=
      { totalAnalyzed := acc.summary.totalAnalyzed,
        averageScore := acc.summary.averageScore,
        worstScore :=
          if child.summary.worstScore < acc.summary.worstScore then child.summary.worstScore
          else acc.summary.worstScore,
        worstFile :=
          if child.summary.worstScore < acc.summary.worstScore then child.summary.worstFile
          else acc.summary.worstFile } }

/-- The aggregate summary and cross-entry-point deduplication of `main`:
`totalAnalyzed`, the average over all analyzed entries, `uniqStrings` on
`notFound` and the two limit-skip lists, and removal from those skip
lists of any path that was analyzed. -/
def mainFinalize (r : TravResult) : TravResult :=
  let r1 := { r with summary.totalAnalyzed := r.analyzed.length }
  let r2 :=
    if 0 < r1.analyzed.length then
      { r1 with summary.averageScore := averageOf r1.analyzed }
    else r1
  let ap := r2.analyzed.map (·.fullPath)
  { r2 with
    notFound := dedupFirst r2.notFound,
    skipped.maxDepth := (dedupFirst r2.skipped.maxDepth).filter fun q => decide (q ∉ ap),
    skipped.maxCount := (dedupFirst r2.skipped.maxCount).filter fun q => decide (q ∉ ap) }

/-- One iteration of the entry-point loop of `main`: run
`analyzeWithLinks` on the next entry with the shared visited set and
merge into `allResults`. -/
def mainStep (fs : FS) (cfg : AwlConfig) (st : TravResult × List AbsPath) (e : AbsPath) :
    TravResult × List AbsPath :=
  let la := analyzeWithLinks fs cfg e st.2
  (mainMerge st.1 la.1, la.2)

/-- The link-following branch of `main` (`includeLinks` true, which
requires a configured `--root-dir`): validate that every entry point
exists, that the root exists, that every entry point's real path is
within the root's real path, and (under `--no-symlinks`) that no entry
point is a symlink; then run `analyzeWithLinks` over all entry points
with one shared `visited` set, merging into `allResults`, and finalize.
`none` models the fatal `process.exit(1)` paths. -/
def mainLinked (fs : FS) (maxDepth maxCount : Nat) (summaryFmt noSymlinks : Bool)
    (rootDir : AbsPath) (entries : List AbsPath) : Option TravResult :=
  if entries.isEmpty then none
  else if entries.any (fun p => fs.exist p = false) then none
  else if fs.exist rootDir = false then none
  else
    let rootRealPath := fs.real rootDir
    if entries.any (fun p => isRealPathWithinRoot (fs.real p) rootRealPath = false) then none
    else if noSymlinks ∧ entries.any (fun p => fs.real p ≠ p) then none
    else
      let cfg : AwlConfig :=
        ⟨maxDepth, maxCount, summaryFmt, some rootDir, some rootRealPath, noSymlinks⟩
      some (mainFinalize (entries.foldl (mainStep fs cfg) (emptyResult, ([] : List AbsPath))).1)

end Sandbox

/-! ## The `scripts/analyze_document.js` metric extractor (`Scripts` namespace)

The revision at `scripts/analyze_document.js` classifies every link match
as external exactly when the target starts with `http://`/`https://` and
internal otherwise, and has no `anchorLinks` metric. -/

namespace Scripts

/-- The metrics object of `scripts/analyze_document.js` (no
`anchorLinks`). -/
structure Metrics where
  totalLines : Nat
  nonEmptyLines : Nat
  wordCount : Nat
  sections : List Sandbox.SectionInfo
  maxDepth : Nat
  sectionCount : Nat
  internalLinks : Nat
  externalLinks : Nat
  totalLinks : Nat
  frontLoadedContent : Nat
  avgSectionLength : Nat
  redundancyIndicators : List (String × Nat)
deriving Repr, DecidableEq

/-- The accumulator of the `lines.forEach` loop. -/
structure LineAcc where
  sections : List Sandbox.SectionInfo
  maxDepth : Nat
  sectionCount : Nat
  internalLinks : Nat
  externalLinks : Nat
  totalLinks : Nat
deriving Repr, DecidableEq

/-- Whether a raw link target counts as external here:
`url.startsWith('http://') || url.startsWith('https://')`. -/
def isExternalUrl (url : String) : Bool :=
  strStartsWith url "http://" || strStartsWith url "https://"

/-- Link classification of this revision: count every match; external on
an `http(s)://` prefix, internal otherwise. -/
def linkStep (a : LineAcc) (url : String) : LineAcc :=
  let a1 := { a with totalLinks := a.totalLinks + 1 }
  if isExternalUrl url then { a1 with externalLinks := a1.externalLinks + 1 }
  else { a1 with internalLinks := a1.internalLinks + 1 }

/-- One iteration of `lines.forEach((line, index) => ...)`. -/
def lineStep (acc : LineAcc) (li : Nat × String) : LineAcc :=
  let trimmed := jsTrim li.2
  let acc1 :=
    match parseHeader trimmed with
    | some dt =>
      { acc with
        sections := acc.sections ++ [⟨dt.1, dt.2, li.1 + 1⟩],
        maxDepth := max acc.maxDepth dt.1,
        sectionCount := acc.sectionCount + 1 }
    | none => acc
  (linkTargets trimmed).foldl linkStep acc1

/-- `analyzeDocument(filePath)` of `scripts/analyze_document.js`. -/
def analyzeDocument (fs : FS) (filePath : AbsPath) : Metrics :=
  let content := fs.content filePath
  let lines := splitLines content
  let acc := lines.enum.foldl lineStep ⟨[], 0, 0, 0, 0, 0⟩
  let frontSection := lines.length / 5
  { totalLines := lines.length,
    nonEmptyLines := (lines.filter fun l => 0 < (jsTrim l).length).length,
    wordCount := countWords content,
    sections := acc.sections,
    maxDepth := acc.maxDepth,
    sectionCount := acc.sectionCount,
    internalLinks := acc.internalLinks,
    externalLinks := acc.externalLinks,
    totalLinks := acc.totalLinks,
    frontLoadedContent := ((lines.take frontSection).filter fun l => 0 < (jsTrim l).length).length,
    avgSectionLength := if 0 < acc.sectionCount then lines.length / acc.sectionCount else 0,
    redundancyIndicators := redundancyOf content }

/-- All link-match targets of a document, line by line over trimmed
lines, in order — the population the link counters of this revision
classify. -/
def allTargets (content : String) : List String :=
  ((splitLines content).map fun l => linkTargets (jsTrim l)).flatten

end Scripts

/-! ## Concrete filesystems used to instantiate the claims

These model small real directory trees; `real` is the identity except on
the documented symlinks, and every `real` image is itself canonical. -/

/-- A filesystem with root `/r` containing one small clean document
`/r/a` (content `"hello"`, no headings, no links). -/
def goodFs : FS where
  exist := fun p => p == (["r"] : AbsPath) || p == ["r", "a"]
  real := fun p => p
  content := fun p => if p == (["r", "a"] : AbsPath) then "hello" else ""
  isSymlink := fun _ => false

/-- A filesystem with root `/r`: `/r/a` holds `"[x](b) [y](a)"` (a link
to `/r/b` and a self-link); `/r/b` and `/r/c` exist but are symlinks
whose targets `/z/b`, `/z/c` lie outside the root. -/
def symFs : FS where
  exist := fun p =>
    p == (["r"] : AbsPath) || p == ["r", "a"] || p == ["r", "b"] || p == ["r", "c"]
  real := fun p =>
    if p == (["r", "b"] : AbsPath) then ["z", "b"]
    else if p == (["r", "c"] : AbsPath) then ["z", "c"]
    else p
  content := fun p => if p == (["r", "a"] : AbsPath) then "[x](b) [y](a)" else ""
  isSymlink := fun p => p == (["r", "b"] : AbsPath) || p == ["r", "c"]

/-- The run of the engine on `goodFs` with the default limits
(`--max-depth 3 --max-count 30`), entry point `/r/a`, root `/r`. -/
def goodRun : Option Sandbox.TravResult :=
  Sandbox.mainLinked goodFs 3 30 true false ["r"] [["r", "a"]]

/-- The run of the engine on `symFs` with `--max-depth 1 --max-count 1`,
entry point `/r/a`, root `/r`: the analyzed-count budget is exhausted by
the entry point itself, so both extracted candidates arrive over budget. -/
def tightRun : Option Sandbox.TravResult :=
  Sandbox.mainLinked symFs 1 1 true false ["r"] [["r", "a"]]

/-! ## Specification-side definitions used in claim statements -/

namespace Sandbox

/-- The paths of the analyzed entries of a result. -/
def analyzedPaths (r : TravResult) : List AbsPath :=
  r.analyzed.map (·.fullPath)

/-- The minimum overall score of a list of analyzed entries, starting
from the initial worst score 10. -/
def worstOf (l : List FileResult) : Int :=
  l.foldl (fun w e => min w e.evaluation.scores.overall) 10

/-- The incremental worst-score/worst-file update of the source
(`if (score < result.summary.worstScore) ...`), as a fold step. -/
def pairUpd (acc : Int × Option AbsPath) (e : FileResult) : Int × Option AbsPath :=
  if e.evaluation.scores.overall < acc.1 then (e.evaluation.scores.overall, some e.fullPath)
  else acc

/-- The first entry of a list attaining a given overall score. -/
def firstWith (l : List FileResult) (s : Int) : Option FileResult :=
  l.find? fun e => e.evaluation.scores.overall == s

/-- The worst-file value the incremental strict-`<` update computes: the
canonical path of the first minimum attainer when the minimum beats the
initial 10, and `null` otherwise. -/
def wfSpec (l : List FileResult) : Option AbsPath :=
  if worstOf l < 10 then (firstWith l (worstOf l)).map (·.fullPath) else none

/-- The running-summary invariant of the traversal: the worst-score pair
of a result is determined by its `analyzed` list. -/
def SummaryInv (r : TravResult) : Prop :=
  r.summary.worstScore = worstOf r.analyzed ∧
  r.summary.worstFile = wfSpec r.analyzed

end Sandbox

/-- The metrics of a 600-line document with 6 link matches, 5 of them
local (internal), 1 external, none anchor-only — scenario B of the spec. -/
def metrics600with5of6 : Sandbox.Metrics :=
  { totalLines := 600, nonEmptyLines := 550, wordCount := 4000, sections := [],
    maxDepth := 0, sectionCount := 0, internalLinks := 5, externalLinks := 1,
    anchorLinks := 0, totalLinks := 6, frontLoadedContent := 100,
    avgSectionLength := 0, redundancyIndicators := [] }

/-- The same 600-line document with only 1 of the 6 link matches local. -/
def metrics600with1of6 : Sandbox.Metrics :=
  { metrics600with5of6 with internalLinks := 1, externalLinks := 5 }

/-- A 300-line document with 2 anchor-only references among its 3 link
matches (tier score 7: some internal links, ratio below the threshold). -/
def metricsWithAnchors : Sandbox.Metrics :=
  { totalLines := 300, nonEmptyLines := 280, wordCount := 2000, sections := [],
    maxDepth := 2, sectionCount := 4, internalLinks := 1, externalLinks := 0,
    anchorLinks := 2, totalLinks := 3, frontLoadedContent := 50,
    avgSectionLength := 75, redundancyIndicators := [] }

/-! ## Helper lemmas -/

theorem length_filter_split {α} (p : α → Bool) (l : List α) :
    (l.filter p).length + (l.filter fun x => !p x).length = l.length := by
  induction l with
  | nil => simp
  | cons x xs ih =>
    by_cases h : p x <;> simp [List.filter, h] <;> omega

/-- Link-counter behaviour of the `Scripts` link fold: every target is
counted once, externally exactly on an `http(s)://` prefix. -/
theorem scripts_linkFold (tgts : List String) (a : Scripts.LineAcc) :
    ((tgts.foldl Scripts.linkStep a).totalLinks = a.totalLinks + tgts.length ∧
      (tgts.foldl Scripts.linkStep a).externalLinks =
        a.externalLinks + (tgts.filter Scripts.isExternalUrl).length ∧
      (tgts.foldl Scripts.linkStep a).internalLinks =
        a.internalLinks + (tgts.filter fun u => !Scripts.isExternalUrl u).length) ∧
    ((tgts.foldl Scripts.linkStep a).sections = a.sections ∧
      (tgts.foldl Scripts.linkStep a).maxDepth = a.maxDepth ∧
      (tgts.foldl Scripts.linkStep a).sectionCount = a.sectionCount) := by
  induction tgts generalizing a with
  | nil => simp
  | cons t ts ih =>
    obtain ⟨⟨h1, h2, h3⟩, h4, h5, h6⟩ := ih (Scripts.linkStep a t)
    by_cases h : Scripts.isExternalUrl t
    all_goals
      simp [Scripts.linkStep, h] at h1 h2 h3 h4 h5 h6
      refine ⟨⟨?_, ?_, ?_⟩, ?_, ?_, ?_⟩ <;>
        simp [Scripts.linkStep, h] <;>
        first | omega | exact h4 | exact h5 | exact h6

/-- Link-counter behaviour of the `Scripts` line fold: the heading logic
does not touch the link counters, so they accumulate exactly the link
matches of the trimmed lines, in order. -/
theorem scripts_lineFold (ls : List (Nat × String)) (a : Scripts.LineAcc) :
    (ls.foldl Scripts.lineStep a).totalLinks =
      a.totalLinks + ((ls.map fun li => linkTargets (jsTrim li.2)).flatten).length ∧
    (ls.foldl Scripts.lineStep a).externalLinks =
      a.externalLinks +
        (((ls.map fun li => linkTargets (jsTrim li.2)).flatten).filter Scripts.isExternalUrl).length ∧
    (ls.foldl Scripts.lineStep a).internalLinks =
      a.internalLinks +
        (((ls.map fun li => linkTargets (jsTrim li.2)).flatten).filter
          fun u => !Scripts.isExternalUrl u).length := by
  induction ls generalizing a with
  | nil => simp
  | cons li ls ih =>
    obtain ⟨h1, h2, h3⟩ := ih (Scripts.lineStep a li)
    have hsec :
        (Scripts.lineStep a li).totalLinks =
          a.totalLinks + (linkTargets (jsTrim li.2)).length ∧
        (Scripts.lineStep a li).externalLinks =
          a.externalLinks + ((linkTargets (jsTrim li.2)).filter Scripts.isExternalUrl).length ∧
        (Scripts.lineStep a li).internalLinks =
          a.internalLinks +
            ((linkTargets (jsTrim li.2)).filter fun u => !Scripts.isExternalUrl u).length := by
      unfold Scripts.lineStep
      rcases hps : parseHeader (jsTrim li.2) with _ | dt <;>
        simp [hps] <;>
        exact (scripts_linkFold (linkTargets (jsTrim li.2)) _).1
    obtain ⟨g1, g2, g3⟩ := hsec
    refine ⟨?_, ?_, ?_⟩ <;>
      simp only [List.foldl_cons, List.map_cons, List.flatten_cons, List.length_append,
        List.filter_append] <;>
      omega

/-- **C10.** For every document, the metrics produced by
`scripts/analyze_document.js` satisfy
`totalLinks = internalLinks + externalLinks`: every `[label](target)`
match is counted exactly once, classified as external exactly when the
target starts with `http://` or `https://` and internal otherwise. -/
theorem C10_link_classification (fs : FS) (p : AbsPath) :
    (Scripts.analyzeDocument fs p).totalLinks =
      (Scripts.analyzeDocument fs p).internalLinks +
        (Scripts.analyzeDocument fs p).externalLinks ∧
    (Scripts.analyzeDocument fs p).externalLinks =
      ((Scripts.allTargets (fs.content p)).filter Scripts.isExternalUrl).length ∧
    (Scripts.analyzeDocument fs p).internalLinks =
      ((Scripts.allTargets (fs.content p)).filter fun u => !Scripts.isExternalUrl u).length := by
  have hmap : ((splitLines (fs.content p)).enum.map fun li => linkTargets (jsTrim li.2))
      = (splitLines (fs.content p)).map fun l => linkTargets (jsTrim l) := by
    rw [show (fun li : Nat × String => linkTargets (jsTrim li.2))
        = (fun l : String => linkTargets (jsTrim l)) ∘ Prod.snd from rfl,
      ← List.map_map, List.enum_map_snd]
  obtain ⟨h1, h2, h3⟩ := scripts_lineFold (splitLines (fs.content p)).enum ⟨[], 0, 0, 0, 0, 0⟩
  rw [hmap] at h1 h2 h3
  have hsplit := length_filter_split Scripts.isExternalUrl
    ((splitLines (fs.content p)).map fun l => linkTargets (jsTrim l)).flatten
  have ht : (Scripts.analyzeDocument fs p).totalLinks =
      ((splitLines (fs.content p)).enum.foldl Scripts.lineStep ⟨[], 0, 0, 0, 0, 0⟩).totalLinks := rfl
  have he : (Scripts.analyzeDocument fs p).externalLinks =
      ((splitLines (fs.content p)).enum.foldl Scripts.lineStep ⟨[], 0, 0, 0, 0, 0⟩).externalLinks := rfl
  have hi : (Scripts.analyzeDocument fs p).internalLinks =
      ((splitLines (fs.content p)).enum.foldl Scripts.lineStep ⟨[], 0, 0, 0, 0, 0⟩).internalLinks := rfl
  have hta : Scripts.allTargets (fs.content p) =
      ((splitLines (fs.content p)).map fun l => linkTargets (jsTrim l)).flatten := rfl
  have zt : ((⟨[], 0, 0, 0, 0, 0⟩ : Scripts.LineAcc)).totalLinks = 0 := rfl
  have ze : ((⟨[], 0, 0, 0, 0, 0⟩ : Scripts.LineAcc)).externalLinks = 0 := rfl
  have zi : ((⟨[], 0, 0, 0, 0, 0⟩ : Scripts.LineAcc)).internalLinks = 0 := rfl
  rw [ht, he, hi, hta]
  refine ⟨?_, ?_, ?_⟩ <;> omega

/-- **C4.** For every `DocumentMetrics` in which at least one anchor-only
reference was found, the progressive-disclosure sub-score equals the
tier score (the score the same metrics would get with no anchor
references) minus 2, floored at 0, regardless of the line-count tier. -/
theorem C4_anchor_penalty (m : Sandbox.Metrics) (h : 0 < m.anchorLinks) :
    (Sandbox.evaluateMetrics m).scores.progressiveDisclosure =
      max 0 ((Sandbox.evaluateMetrics
        { m with anchorLinks := 0 }).scores.progressiveDisclosure - 2) := by
  have htier : Sandbox.pdTierEval { m with anchorLinks := 0 } = Sandbox.pdTierEval m := rfl
  unfold Sandbox.evaluateMetrics
  simp [htier, h]

/-- **C4 (witness).** The penalty at a concrete metrics record with two
anchor references (tier score 7, penalised score 5). -/
theorem C4_anchor_penalty_witness :
    0 < metricsWithAnchors.anchorLinks ∧
      (Sandbox.evaluateMetrics metricsWithAnchors).scores.progressiveDisclosure =
        max 0 ((Sandbox.evaluateMetrics
          { metricsWithAnchors with anchorLinks := 0 }).scores.progressiveDisclosure - 2) :=
  ⟨by decide, C4_anchor_penalty metricsWithAnchors (by decide)⟩

/-- **C5 (counterexample).** A 600-line document with only 1 local
reference out of 6 total gets progressive-disclosure score 6, not the 3
the claim states (3 is the score for *no* local references in this
tier). -/
theorem C5_counterexample :
    (Sandbox.evaluateMetrics metrics600with1of6).scores.progressiveDisclosure = 6 ∧
      ¬ (Sandbox.evaluateMetrics metrics600with1of6).scores.progressiveDisclosure = 3 := by
  decide

/-- **C5 (amended).** For a 600-line document with 6 total references of
which 5 are local, the progressive-disclosure sub-score is 10; with only
1 local reference out of 6 it is 6. -/
theorem C5_progressive_disclosure :
    (Sandbox.evaluateMetrics metrics600with5of6).scores.progressiveDisclosure = 10 ∧
      (Sandbox.evaluateMetrics metrics600with1of6).scores.progressiveDisclosure = 6 := by
  decide

/-- **C6.** A candidate whose canonical path is already in the shared
`visited` set is dropped silently: the call contributes the untouched
initial result object (every collection empty — the skip categories
being exactly `maxDepth`, `maxCount`, `outsideRoot`, `symlinks`) and
leaves the visited set unchanged. -/
theorem C6_duplicate_silent (fs : FS) (cfg : Sandbox.AwlConfig) (fuel : Nat)
    (p : AbsPath) (d : Nat) (v : List AbsPath) (h : p ∈ v) :
    Sandbox.awl fs cfg fuel p d v = (Sandbox.emptyResult, v) := by
  cases fuel with
  | zero => rfl
  | succ n =>
    unfold Sandbox.awl Sandbox.awlStep
    simp [h]

/-- **C6 (witness).** A duplicate arrival of `/r/a` at depth 1. -/
theorem C6_duplicate_silent_witness :
    ((["r", "a"] : AbsPath) ∈ [(["r", "a"] : AbsPath)]) ∧
      Sandbox.awl goodFs ⟨3, 30, true, some ["r"], some ["r"], false⟩ 3
          ["r", "a"] 1 [["r", "a"]] =
        (Sandbox.emptyResult, [["r", "a"]]) :=
  ⟨by decide,
    C6_duplicate_silent goodFs ⟨3, 30, true, some ["r"], some ["r"], false⟩ 3
      ["r", "a"] 1 [["r", "a"]] (by decide)⟩

/-- **C7.** A reference whose (trimmed, angle-stripped) raw target has a
URI scheme — a letter followed by scheme characters and `:`, which
subsumes `http://`/`https://` — normalizes to `null`; and a reference
that normalizes to `null` contributes nothing to the extraction result,
so it never becomes a filesystem candidate. -/
theorem C7_scheme_excluded_from_traversal :
    (∀ rawUrl : String,
        (hasScheme (stripAngles (jsTrim rawUrl)) = true ∨
          strStartsWith (stripAngles (jsTrim rawUrl)) "http://" = true ∨
          strStartsWith (stripAngles (jsTrim rawUrl)) "https://" = true) →
        normalizeMarkdownLinkTarget rawUrl = none) ∧
      (∀ (fs : FS) (fileDir : AbsPath) (rootDir : Option AbsPath) (noSymlinks : Bool)
          (acc : Sandbox.ExtractResult) (rawUrl : String),
        normalizeMarkdownLinkTarget rawUrl = none →
        Sandbox.extractStep fs fileDir rootDir noSymlinks acc rawUrl = acc) := by
  constructor
  · intro rawUrl h
    simp only [normalizeMarkdownLinkTarget]
    split_ifs with h1 h2 h3 h4
    · rfl
    · rfl
    · rfl
    · exfalso
      rcases h with h | h | h
      · exact h3 h
      · exact h2 (by simp [h])
      · exact h2 (by simp [h])
    · exfalso
      rcases h with h | h | h
      · exact h3 h
      · exact h2 (by simp [h])
      · exact h2 (by simp [h])
  · intro fs fileDir rootDir noSymlinks acc rawUrl h
    unfold Sandbox.extractStep
    rw [h]

/-- **C7 (witness).** `mailto:someone@example.org` has a scheme,
normalizes to `null`, and leaves the extraction state untouched. -/
theorem C7_scheme_excluded_witness :
    normalizeMarkdownLinkTarget "mailto:someone@example.org" = none ∧
      Sandbox.extractStep goodFs ["r"] (some ["r"]) false ⟨[], [], []⟩
          "mailto:someone@example.org" = ⟨[], [], []⟩ :=
  ⟨C7_scheme_excluded_from_traversal.1 "mailto:someone@example.org" (Or.inl (by decide)),
    C7_scheme_excluded_from_traversal.2 goodFs ["r"] (some ["r"]) false ⟨[], [], []⟩
      "mailto:someone@example.org"
      (C7_scheme_excluded_from_traversal.1 "mailto:someone@example.org" (Or.inl (by decide)))⟩

/-! ## Projection lemmas for the traversal combinators -/

namespace Sandbox

@[simp] theorem emptyResult_analyzed : emptyResult.analyzed = [] := rfl
@[simp] theorem emptyResult_summary : emptyResult.summary = ⟨0, 0, 10, none⟩ := rfl

@[simp] theorem mkFileResult_fullPath (fs : FS) (cfg : AwlConfig) (p : AbsPath) (d : Nat) :
    (mkFileResult fs cfg p d).fullPath = p := rfl

@[simp] theorem mkFileResult_depth (fs : FS) (cfg : AwlConfig) (p : AbsPath) (d : Nat) :
    (mkFileResult fs cfg p d).depth = d := rfl

@[simp] theorem mkFileResult_evaluation (fs : FS) (cfg : AwlConfig) (p : AbsPath) (d : Nat) :
    (mkFileResult fs cfg p d).evaluation = evaluateMetrics (analyzeDocument fs p) := rfl

@[simp] theorem baseResult_analyzed (fs : FS) (cfg : AwlConfig) (p : AbsPath) (d : Nat) :
    (baseResult fs cfg p d).analyzed = [mkFileResult fs cfg p d] := rfl

@[simp] theorem addLinkSkips_analyzed (r : TravResult) (lr : ExtractResult) :
    (addLinkSkips r lr).analyzed = r.analyzed := rfl

@[simp] theorem addLinkSkips_summary (r : TravResult) (lr : ExtractResult) :
    (addLinkSkips r lr).summary = r.summary := rfl

@[simp] theorem finishAverage_analyzed (r : TravResult) :
    (finishAverage r).analyzed = r.analyzed := by
  unfold finishAverage; split <;> rfl

@[simp] theorem finishAverage_skipped (r : TravResult) :
    (finishAverage r).skipped = r.skipped := by
  unfold finishAverage; split <;> rfl

@[simp] theorem finishAverage_worstScore (r : TravResult) :
    (finishAverage r).summary.worstScore = r.summary.worstScore := by
  unfold finishAverage; split <;> rfl

@[simp] theorem finishAverage_worstFile (r : TravResult) :
    (finishAverage r).summary.worstFile = r.summary.worstFile := by
  unfold finishAverage; split <;> rfl

@[simp] theorem rootScopeFilter_analyzed (r : TravResult) :
    (rootScopeFilter r).analyzed = r.analyzed := rfl

@[simp] theorem rootScopeFilter_summary (r : TravResult) :
    (rootScopeFilter r).summary = r.summary := rfl

@[simp] theorem rootFilterIte_analyzed (c : Prop) [Decidable c] (r : TravResult) :
    (if c then rootScopeFilter r else r).analyzed = r.analyzed := by
  split <;> simp

@[simp] theorem rootFilterIte_summary (c : Prop) [Decidable c] (r : TravResult) :
    (if c then rootScopeFilter r else r).summary = r.summary := by
  split <;> simp

@[simp] theorem rootScopeFilter_notFound (r : TravResult) :
    (rootScopeFilter r).notFound = r.notFound := rfl

@[simp] theorem rootScopeFilter_outsideRoot (r : TravResult) :
    (rootScopeFilter r).skipped.outsideRoot = r.skipped.outsideRoot := rfl

@[simp] theorem rootScopeFilter_symlinks (r : TravResult) :
    (rootScopeFilter r).skipped.symlinks = r.skipped.symlinks := rfl

@[simp] theorem mergeResult_analyzed (acc child : TravResult) :
    (mergeResult acc child).analyzed = acc.analyzed ++ child.analyzed := rfl

@[simp] theorem mainMerge_analyzed (acc child : TravResult) :
    (mainMerge acc child).analyzed = acc.analyzed ++ child.analyzed := rfl

@[simp] theorem mainFinalize_analyzed (r : TravResult) :
    (mainFinalize r).analyzed = r.analyzed := by
  simp only [mainFinalize]
  split <;> rfl

theorem sandboxGate_analyzed {fs : FS} {cfg : AwlConfig} {p : AbsPath} {r : TravResult}
    (h : sandboxGate fs cfg p = some r) : r.analyzed = [] := by
  unfold sandboxGate at h
  split at h
  · exact absurd h (by simp)
  · dsimp only at h
    split_ifs at h with h1 h2 <;> cases h <;> rfl

end Sandbox

/-! ## The visited-set / analyzed-list relation -/

/-- Every element of the final visited set beyond the initial one is the
path of a newly analyzed entry (and conversely), in matching order. -/
theorem linkLoop_delta
    (step : AbsPath → List AbsPath → Sandbox.TravResult × List AbsPath) (N : Nat)
    (hstep : ∀ l w, (step l w).2 = ((step l w).1.analyzed.map (·.fullPath)).reverse ++ w) :
    ∀ (ls : List AbsPath) (acc : Sandbox.TravResult) (v : List AbsPath),
      ∃ δ : List Sandbox.FileResult,
        (Sandbox.linkLoop step N ls acc v).1.analyzed = acc.analyzed ++ δ ∧
        (Sandbox.linkLoop step N ls acc v).2 = (δ.map (·.fullPath)).reverse ++ v := by
  intro ls
  induction ls with
  | nil =>
    intro acc v
    exact ⟨[], by simp [Sandbox.linkLoop], by simp [Sandbox.linkLoop]⟩
  | cons l ls ih =>
    intro acc v
    unfold Sandbox.linkLoop
    split_ifs with h
    · obtain ⟨δ, h1, h2⟩ := ih _ v
      exact ⟨δ, by simpa using h1, h2⟩
    · obtain ⟨δ, h1, h2⟩ := ih (Sandbox.mergeResult acc (step l v).1) ((step l v).2)
      refine ⟨(step l v).1.analyzed ++ δ, ?_, ?_⟩
      · rw [h1]; simp
      · rw [h2, hstep l v]; simp

theorem awlStep_visited (fs : FS) (cfg : Sandbox.AwlConfig)
    (recurse : AbsPath → List AbsPath → Sandbox.TravResult × List AbsPath)
    (p : AbsPath) (d : Nat) (v : List AbsPath)
    (hrec : ∀ l w, (recurse l w).2 = ((recurse l w).1.analyzed.map (·.fullPath)).reverse ++ w) :
    (Sandbox.awlStep fs cfg recurse p d v).2 =
      ((Sandbox.awlStep fs cfg recurse p d v).1.analyzed.map (·.fullPath)).reverse ++ v := by
  have hcore : (Sandbox.awlCore fs cfg recurse p d v).2 =
      ((Sandbox.awlCore fs cfg recurse p d v).1.analyzed.map (·.fullPath)).reverse ++ v := by
    unfold Sandbox.awlCore
    dsimp only
    simp only [Sandbox.rootFilterIte_analyzed, Sandbox.finishAverage_analyzed]
    split_ifs with hd hdm
    · obtain ⟨δ, hA, hV⟩ :=
        linkLoop_delta recurse cfg.maxCount hrec
          (Sandbox.extractInternalLinks fs p (fs.content p) cfg.rootDir cfg.noSymlinks).valid
          (Sandbox.addLinkSkips (Sandbox.baseResult fs cfg p d)
            (Sandbox.extractInternalLinks fs p (fs.content p) cfg.rootDir cfg.noSymlinks))
          (p :: v)
      simp [hA, hV]
    · simp
    · simp
  unfold Sandbox.awlStep
  split_ifs with h1 h2 h3
  · simp
  · simp [Sandbox.emptyResult]
  · simp [Sandbox.emptyResult]
  · split
    · rename_i r hg
      simp [Sandbox.sandboxGate_analyzed hg]
    · exact hcore

theorem awl_visited (fs : FS) (cfg : Sandbox.AwlConfig) :
    ∀ (fuel : Nat) (p : AbsPath) (d : Nat) (v : List AbsPath),
      (Sandbox.awl fs cfg fuel p d v).2 =
        ((Sandbox.awl fs cfg fuel p d v).1.analyzed.map (·.fullPath)).reverse ++ v := by
  intro fuel
  induction fuel with
  | zero => intro p d v; simp [Sandbox.awl]
  | succ n ih =>
    intro p d v
    unfold Sandbox.awl
    exact awlStep_visited fs cfg _ p d v fun l w => ih l (d + 1) w

/-! ## Generic preservation of per-entry predicates, and the count bound -/

theorem linkLoop_analyzed_pred
    (step : AbsPath → List AbsPath → Sandbox.TravResult × List AbsPath) (N : Nat)
    (Q : Sandbox.FileResult → Prop)
    (hstep : ∀ l w, ∀ e ∈ (step l w).1.analyzed, Q e) :
    ∀ (ls : List AbsPath) (acc : Sandbox.TravResult) (v : List AbsPath),
      (∀ e ∈ acc.analyzed, Q e) →
      ∀ e ∈ (Sandbox.linkLoop step N ls acc v).1.analyzed, Q e := by
  intro ls
  induction ls with
  | nil =>
    intro acc v hacc
    simpa [Sandbox.linkLoop] using hacc
  | cons l ls ih =>
    intro acc v hacc
    unfold Sandbox.linkLoop
    split_ifs with h
    · exact ih _ v (by simpa using hacc)
    · refine ih _ _ ?_
      intro e he
      rw [Sandbox.mergeResult_analyzed] at he
      rcases List.mem_append.mp he with he | he
      · exact hacc e he
      · exact hstep l v e he

theorem awlStep_analyzed_pred (fs : FS) (cfg : Sandbox.AwlConfig)
    (recurse : AbsPath → List AbsPath → Sandbox.TravResult × List AbsPath)
    (p : AbsPath) (d : Nat) (v : List AbsPath) (Q : Sandbox.FileResult → Prop)
    (hrec : d < cfg.maxDepth → ∀ l w, ∀ e ∈ (recurse l w).1.analyzed, Q e)
    (hbase : Sandbox.sandboxGate fs cfg p = none → Q (Sandbox.mkFileResult fs cfg p d)) :
    ∀ e ∈ (Sandbox.awlStep fs cfg recurse p d v).1.analyzed, Q e := by
  have hcore : Sandbox.sandboxGate fs cfg p = none →
      ∀ e ∈ (Sandbox.awlCore fs cfg recurse p d v).1.analyzed, Q e := by
    intro hg
    unfold Sandbox.awlCore
    dsimp only
    simp only [Sandbox.rootFilterIte_analyzed, Sandbox.finishAverage_analyzed]
    split_ifs with hd hdm
    · exact linkLoop_analyzed_pred recurse cfg.maxCount Q (hrec hd) _ _ _
        (by simpa using hbase hg)
    · simpa using hbase hg
    · simpa using hbase hg
  unfold Sandbox.awlStep
  split_ifs with h1 h2 h3
  · simp
  · simp [Sandbox.emptyResult]
  · simp [Sandbox.emptyResult]
  · split
    · rename_i r hg
      simp [Sandbox.sandboxGate_analyzed hg]
    · rename_i hg
      exact hcore hg

theorem linkLoop_count
    (step : AbsPath → List AbsPath → Sandbox.TravResult × List AbsPath) (N : Nat)
    (hstep : ∀ l w, w.length ≤ N → (step l w).2.length ≤ N) :
    ∀ (ls : List AbsPath) (acc : Sandbox.TravResult) (v : List AbsPath),
      v.length ≤ N → (Sandbox.linkLoop step N ls acc v).2.length ≤ N := by
  intro ls
  induction ls with
  | nil => intro acc v hv; simpa [Sandbox.linkLoop] using hv
  | cons l ls ih =>
    intro acc v hv
    unfold Sandbox.linkLoop
    split_ifs with h
    · exact ih _ v hv
    · exact ih _ _ (hstep l v hv)

theorem awlStep_count (fs : FS) (cfg : Sandbox.AwlConfig)
    (recurse : AbsPath → List AbsPath → Sandbox.TravResult × List AbsPath)
    (p : AbsPath) (d : Nat) (v : List AbsPath)
    (hrec : ∀ l w, w.length ≤ cfg.maxCount → (recurse l w).2.length ≤ cfg.maxCount)
    (hv : v.length ≤ cfg.maxCount) :
    (Sandbox.awlStep fs cfg recurse p d v).2.length ≤ cfg.maxCount := by
  have hcore : (Sandbox.awlCore fs cfg recurse p d v).2.length ≤ cfg.maxCount ∨
      cfg.maxCount ≤ v.length := by
    by_cases hb : cfg.maxCount ≤ v.length
    · exact Or.inr hb
    · left
      unfold Sandbox.awlCore
      dsimp only
      split_ifs with hd hdm
      · exact linkLoop_count recurse cfg.maxCount hrec _ _ _ (by simp; omega)
      · simp; omega
      · simp; omega
  unfold Sandbox.awlStep
  split_ifs with h1 h2 h3
  · simpa using hv
  · simpa using hv
  · simpa using hv
  · split
    · simpa using hv
    · rcases hcore with hc | hc
      · exact hc
      · exact absurd hc h2

theorem awl_count (fs : FS) (cfg : Sandbox.AwlConfig) :
    ∀ (fuel : Nat) (p : AbsPath) (d : Nat) (v : List AbsPath),
      v.length ≤ cfg.maxCount →
      (Sandbox.awl fs cfg fuel p d v).2.length ≤ cfg.maxCount := by
  intro fuel
  induction fuel with
  | zero => intro p d v hv; simpa [Sandbox.awl] using hv
  | succ n ih =>
    intro p d v hv
    unfold Sandbox.awl
    exact awlStep_count fs cfg _ p d v (fun l w hw => ih l (d + 1) w hw) hv

/-! ## Containment and depth invariants -/

theorem sandboxGate_none_within {fs : FS} {cfg : Sandbox.AwlConfig} {p rd : AbsPath}
    (hrd : cfg.rootDir = some rd) (hg : Sandbox.sandboxGate fs cfg p = none) :
    isRealPathWithinRoot (fs.real p) (cfg.rootRealPath.getD (fs.real rd)) = true := by
  unfold Sandbox.sandboxGate at hg
  rw [hrd] at hg
  dsimp only at hg
  split_ifs at hg with hin hsym
  · cases Bool.eq_false_or_eq_true (isRealPathWithinRoot (fs.real p)
      (cfg.rootRealPath.getD (fs.real rd))) with
    | inl h => exact h
    | inr h => exact absurd h (by simp [hin])

theorem awl_containment (fs : FS) (cfg : Sandbox.AwlConfig) (rd : AbsPath)
    (hrd : cfg.rootDir = some rd) :
    ∀ (fuel : Nat) (p : AbsPath) (d : Nat) (v : List AbsPath),
      ∀ e ∈ (Sandbox.awl fs cfg fuel p d v).1.analyzed,
        isRealPathWithinRoot (fs.real e.fullPath) (cfg.rootRealPath.getD (fs.real rd)) = true := by
  intro fuel
  induction fuel with
  | zero => intro p d v e he; simp [Sandbox.awl] at he
  | succ n ih =>
    intro p d v
    unfold Sandbox.awl
    exact awlStep_analyzed_pred fs cfg _ p d v _
      (fun _ l w e he => ih l (d + 1) w e he)
      (fun hg => by simpa using sandboxGate_none_within hrd hg)

theorem awl_depth (fs : FS) (cfg : Sandbox.AwlConfig) :
    ∀ (fuel : Nat) (p : AbsPath) (d : Nat) (v : List AbsPath), d ≤ cfg.maxDepth →
      ∀ e ∈ (Sandbox.awl fs cfg fuel p d v).1.analyzed, e.depth ≤ cfg.maxDepth := by
  intro fuel
  induction fuel with
  | zero => intro p d v _ e he; simp [Sandbox.awl] at he
  | succ n ih =>
    intro p d v hd
    unfold Sandbox.awl
    exact awlStep_analyzed_pred fs cfg _ p d v _
      (fun hlt l w e he => ih l (d + 1) w hlt e he)
      (fun _ => by simpa using hd)

/-! ## Main-level run structure -/

theorem mainLinked_eq {fs : FS} {M N : Nat} {fmt ns : Bool} {rootDir : AbsPath}
    {entries : List AbsPath} {r : Sandbox.TravResult}
    (h : Sandbox.mainLinked fs M N fmt ns rootDir entries = some r) :
    r = Sandbox.mainFinalize
      ((entries.foldl
        (Sandbox.mainStep fs ⟨M, N, fmt, some rootDir, some (fs.real rootDir), ns⟩)
        (Sandbox.emptyResult, ([] : List AbsPath))).1) := by
  unfold Sandbox.mainLinked at h
  dsimp only at h
  split_ifs at h <;> simp at h
  exact h.symm

theorem mainFold_analyzed_pred (fs : FS) (cfg : Sandbox.AwlConfig)
    (Q : Sandbox.FileResult → Prop)
    (hq : ∀ p v, ∀ e ∈ (Sandbox.analyzeWithLinks fs cfg p v).1.analyzed, Q e) :
    ∀ (entries : List AbsPath) (st : Sandbox.TravResult × List AbsPath),
      (∀ e ∈ st.1.analyzed, Q e) →
      ∀ e ∈ ((entries.foldl (Sandbox.mainStep fs cfg) st).1).analyzed, Q e := by
  intro entries
  induction entries with
  | nil => intro st hst; simpa using hst
  | cons a as ih =>
    intro st hst
    rw [List.foldl_cons]
    refine ih _ ?_
    intro e he
    unfold Sandbox.mainStep at he
    rw [Sandbox.mainMerge_analyzed] at he
    rcases List.mem_append.mp he with he | he
    · exact hst e he
    · exact hq a st.2 e he

/-! ## C1, C2, C3, C8 -/

/-- **C1 (amended).** For every traversal run with a configured root
directory, every entry appended to `analyzed` has a canonical real path
equal to or a strict descendant of the root's canonical real path; and
every resolved candidate that exists on disk, is not yet visited and
arrives while the analyzed-count budget is not exhausted, whose
canonical real path lies outside the root, is recorded under
`skipped.outsideRoot` rather than analyzed. -/
theorem C1_containment :
    (∀ (fs : FS) (M N : Nat) (fmt ns : Bool) (rootDir : AbsPath) (entries : List AbsPath)
        (r : Sandbox.TravResult),
        Sandbox.mainLinked fs M N fmt ns rootDir entries = some r →
        ∀ e ∈ r.analyzed,
          isRealPathWithinRoot (fs.real e.fullPath) (fs.real rootDir) = true) ∧
      (∀ (fs : FS) (cfg : Sandbox.AwlConfig) (rd : AbsPath) (fuel : Nat) (p : AbsPath)
          (d : Nat) (v : List AbsPath),
        cfg.rootDir = some rd → p ∉ v → v.length < cfg.maxCount → fs.exist p = true →
        isRealPathWithinRoot (fs.real p) (cfg.rootRealPath.getD (fs.real rd)) = false →
        Sandbox.awl fs cfg (fuel + 1) p d v =
          ({ Sandbox.emptyResult with
              skipped.outsideRoot := [⟨pathStr p, p⟩] }, v)) := by
  constructor
  · intro fs M N fmt ns rootDir entries r h e he
    have hr := mainLinked_eq h
    subst hr
    rw [Sandbox.mainFinalize_analyzed] at he
    refine mainFold_analyzed_pred fs _
      (fun e => isRealPathWithinRoot (fs.real e.fullPath) (fs.real rootDir) = true)
      ?_ entries _ (by simp) e he
    intro p v e' he'
    unfold Sandbox.analyzeWithLinks at he'
    have := awl_containment fs ⟨M, N, fmt, some rootDir, some (fs.real rootDir), ns⟩
      rootDir rfl _ p 0 v e' he'
    simpa using this
  · intro fs cfg rd fuel p d v hrd hnv hlen hex hout
    have hg : Sandbox.sandboxGate fs cfg p =
        some { Sandbox.emptyResult with skipped.outsideRoot := [⟨pathStr p, p⟩] } := by
      unfold Sandbox.sandboxGate
      rw [hrd]
      dsimp only
      rw [if_pos hout]
    have h2 : ¬ (cfg.maxCount ≤ v.length) := Nat.not_le.mpr hlen
    unfold Sandbox.awl Sandbox.awlStep
    rw [if_neg hnv, if_neg h2, if_neg (by simp [hex]), hg]

/-- **C1 (witness).** On `goodFs` the single analyzed entry `/r/a` is
within the root `/r`; on `symFs` the existing candidate `/r/c`, whose
real path `/z/c` lies outside the root, is rejected into
`skipped.outsideRoot`. -/
theorem C1_containment_witness :
    isRealPathWithinRoot (goodFs.real ["r", "a"]) (goodFs.real ["r"]) = true ∧
      Sandbox.awl symFs ⟨1, 1, true, some ["r"], some ["r"], false⟩ 1 ["r", "c"] 0 [] =
        ({ Sandbox.emptyResult with
            skipped.outsideRoot := [⟨pathStr ["r", "c"], ["r", "c"]⟩] }, []) := by
  constructor
  · obtain ⟨r, hr⟩ : ∃ r, Sandbox.mainLinked goodFs 3 30 true false ["r"] [["r", "a"]] = some r :=
      ⟨_, rfl⟩
    have hm : r.analyzed.map (·.fullPath) = [["r", "a"]] := by
      have hmm : (Sandbox.mainLinked goodFs 3 30 true false ["r"] [["r", "a"]]).map
          (fun r => r.analyzed.map (·.fullPath)) = some [["r", "a"]] := by decide
      rw [hr] at hmm
      simpa using hmm
    rcases hla : r.analyzed with _ | ⟨e, rest⟩
    · rw [hla] at hm; simp at hm
    · rw [hla] at hm
      simp at hm
      have hc := C1_containment.1 goodFs 3 30 true false ["r"] [["r", "a"]] r hr e
        (by rw [hla]; exact List.mem_cons_self e rest)
      rwa [hm.1] at hc
  · exact C1_containment.2 symFs ⟨1, 1, true, some ["r"], some ["r"], false⟩ ["r"] 0
      ["r", "c"] 0 [] rfl (by decide) (by decide) (by decide) (by decide)

/-- **C1 (counterexample).** In the `tightRun` traversal the candidate
`/r/b` is a resolved candidate (extracted from `/r/a`), exists, and its
canonical real path `/z/b` lies outside the root — yet the final result
records it under `skipped.maxCount`, and `skipped.outsideRoot` is empty:
the count-budget guard preempts the sandbox check. -/
theorem C1_counterexample :
    (Sandbox.extractInternalLinks symFs ["r", "a"] (symFs.content ["r", "a"])
        (some ["r"]) false).valid = [["r", "b"], ["r", "a"]] ∧
      symFs.exist ["r", "b"] = true ∧
      isRealPathWithinRoot (symFs.real ["r", "b"]) (symFs.real ["r"]) = false ∧
      (tightRun.map fun r => r.skipped.outsideRoot) = some [] ∧
      (tightRun.map fun r => r.skipped.maxCount) = some [["r", "b"]] ∧
      (tightRun.map fun r => r.analyzed.map (·.fullPath)) = some [["r", "a"]] := by
  decide

theorem mainFold_count (fs : FS) (cfg : Sandbox.AwlConfig) :
    ∀ (entries : List AbsPath) (st : Sandbox.TravResult × List AbsPath),
      st.1.analyzed.length = st.2.length → st.2.length ≤ cfg.maxCount →
      (entries.foldl (Sandbox.mainStep fs cfg) st).1.analyzed.length =
          (entries.foldl (Sandbox.mainStep fs cfg) st).2.length ∧
        (entries.foldl (Sandbox.mainStep fs cfg) st).2.length ≤ cfg.maxCount := by
  intro entries
  induction entries with
  | nil => intro st h1 h2; exact ⟨h1, h2⟩
  | cons a as ih =>
    intro st h1 h2
    rw [List.foldl_cons]
    refine ih _ ?_ ?_
    · unfold Sandbox.mainStep Sandbox.analyzeWithLinks
      dsimp only
      rw [Sandbox.mainMerge_analyzed, List.length_append,
        awl_visited fs cfg (cfg.maxDepth + 1) a 0 st.2]
      simp [h1]
      omega
    · unfold Sandbox.mainStep Sandbox.analyzeWithLinks
      exact awl_count fs cfg (cfg.maxDepth + 1) a 0 st.2 h2

/-- **C2 (amended).** For every traversal run with configured maximum
analyzed-file count N, the final `analyzed` list has length at most N;
and a candidate *whose canonical path is not already in the visited set*
arriving when the visited set already has size N is recorded under
`skipped.maxCount` and not analyzed. -/
theorem C2_count_bound :
    (∀ (fs : FS) (M N : Nat) (fmt ns : Bool) (rootDir : AbsPath) (entries : List AbsPath)
        (r : Sandbox.TravResult),
        Sandbox.mainLinked fs M N fmt ns rootDir entries = some r →
        r.analyzed.length ≤ N) ∧
      (∀ (fs : FS) (cfg : Sandbox.AwlConfig) (fuel : Nat) (p : AbsPath) (d : Nat)
          (v : List AbsPath),
        cfg.maxCount ≤ v.length → p ∉ v →
        Sandbox.awl fs cfg (fuel + 1) p d v =
          ({ Sandbox.emptyResult with skipped.maxCount := [p] }, v)) := by
  constructor
  · intro fs M N fmt ns rootDir entries r h
    have hr := mainLinked_eq h
    subst hr
    rw [Sandbox.mainFinalize_analyzed]
    have hfc := mainFold_count fs ⟨M, N, fmt, some rootDir, some (fs.real rootDir), ns⟩
      entries (Sandbox.emptyResult, []) (by simp) (by simp)
    have hN : (⟨M, N, fmt, some rootDir, some (fs.real rootDir), ns⟩ :
        Sandbox.AwlConfig).maxCount = N := rfl
    omega
  · intro fs cfg fuel p d v hfull hnv
    unfold Sandbox.awl Sandbox.awlStep
    rw [if_neg hnv, if_pos hfull]

/-- **C2 (witness).** The `goodFs` run analyzes 1 ≤ 30 files; and the
fresh candidate `/r/b` arriving at exhausted budget (`maxCount = 1`,
visited already `{/r/a}`) is recorded under `skipped.maxCount` alone. -/
theorem C2_count_bound_witness :
    (goodRun.getD Sandbox.emptyResult).analyzed.length ≤ 30 ∧
      Sandbox.awl symFs ⟨1, 1, true, some ["r"], some ["r"], false⟩ 1
          ["r", "b"] 1 [["r", "a"]] =
        ({ Sandbox.emptyResult with skipped.maxCount := [["r", "b"]] }, [["r", "a"]]) :=
  ⟨C2_count_bound.1 goodFs 3 30 true false ["r"] [["r", "a"]]
      (goodRun.getD Sandbox.emptyResult) rfl,
    C2_count_bound.2 symFs ⟨1, 1, true, some ["r"], some ["r"], false⟩ 0
      ["r", "b"] 1 [["r", "a"]] (by decide) (by decide)⟩

/-- **C2 (counterexample).** In `tightRun` the candidate `/r/a` arrives
a second time (self-link) when the visited set already has size
`maxCount = 1`, but the final result does not record it under
`skipped.maxCount` (only `/r/b` is there): an already-visited/analyzed
candidate arriving over budget is filtered out, not recorded. -/
theorem C2_counterexample :
    (Sandbox.extractInternalLinks symFs ["r", "a"] (symFs.content ["r", "a"])
        (some ["r"]) false).valid = [["r", "b"], ["r", "a"]] ∧
      (tightRun.map fun r => r.analyzed.map (·.fullPath)) = some [["r", "a"]] ∧
      (tightRun.map fun r => r.skipped.maxCount) = some [["r", "b"]] := by
  decide

/-- **C3.** For every traversal run with configured maximum depth D, no
entry in the final `analyzed` list has depth greater than D; and a call
at depth exactly D (for a fresh, in-budget, existing, sandbox-admitted
candidate) analyzes the document without enqueuing anything, recording
its local references under `skipped.maxDepth` unless already visited. -/
theorem C3_depth_bound :
    (∀ (fs : FS) (M N : Nat) (fmt ns : Bool) (rootDir : AbsPath) (entries : List AbsPath)
        (r : Sandbox.TravResult),
        Sandbox.mainLinked fs M N fmt ns rootDir entries = some r →
        ∀ e ∈ r.analyzed, e.depth ≤ M) ∧
      (∀ (fs : FS) (cfg : Sandbox.AwlConfig) (fuel : Nat) (p : AbsPath) (d : Nat)
          (v : List AbsPath),
        d = cfg.maxDepth → d ≠ 0 → p ∉ v → v.length < cfg.maxCount →
        fs.exist p = true → Sandbox.sandboxGate fs cfg p = none →
        (Sandbox.awl fs cfg (fuel + 1) p d v).1.analyzed =
            [Sandbox.mkFileResult fs cfg p d] ∧
          (Sandbox.awl fs cfg (fuel + 1) p d v).1.skipped.maxDepth =
            (Sandbox.extractInternalLinks fs p (fs.content p) cfg.rootDir
              cfg.noSymlinks).valid.filter fun l => decide (l ∉ p :: v)) := by
  constructor
  · intro fs M N fmt ns rootDir entries r h e he
    have hr := mainLinked_eq h
    subst hr
    rw [Sandbox.mainFinalize_analyzed] at he
    refine mainFold_analyzed_pred fs _ (fun e => e.depth ≤ M) ?_ entries _ (by simp) e he
    intro p v e' he'
    unfold Sandbox.analyzeWithLinks at he'
    exact awl_depth fs ⟨M, N, fmt, some rootDir, some (fs.real rootDir), ns⟩
      _ p 0 v (Nat.zero_le M) e' he'
  · intro fs cfg fuel p d v hdm hd0 hnv hlen hex hg
    have hnlt : ¬ (d < cfg.maxDepth) := by omega
    have h2 : ¬ (cfg.maxCount ≤ v.length) := Nat.not_le.mpr hlen
    unfold Sandbox.awl Sandbox.awlStep
    rw [if_neg hnv, if_neg h2, if_neg (by simp [hex]), hg]
    unfold Sandbox.awlCore
    dsimp only
    rw [if_neg hnlt, if_pos hdm, if_neg hd0]
    constructor
    · simp
    · simp [Sandbox.addLinkSkips, Sandbox.baseResult, Sandbox.emptyResult]

/-- **C3 (witness).** The `goodFs` run keeps all depths ≤ 3; and a call
on `/r/a` at depth exactly `maxDepth = 1` analyzes it and records no
deeper links (it has none). -/
theorem C3_depth_bound_witness :
    (∀ e ∈ (goodRun.getD Sandbox.emptyResult).analyzed, e.depth ≤ 3) ∧
      ((Sandbox.awl goodFs ⟨1, 30, true, some ["r"], some ["r"], false⟩ 1
            ["r", "a"] 1 [["r", "x"]]).1.analyzed =
          [Sandbox.mkFileResult goodFs ⟨1, 30, true, some ["r"], some ["r"], false⟩
            ["r", "a"] 1] ∧
        (Sandbox.awl goodFs ⟨1, 30, true, some ["r"], some ["r"], false⟩ 1
            ["r", "a"] 1 [["r", "x"]]).1.skipped.maxDepth =
          (Sandbox.extractInternalLinks goodFs ["r", "a"] (goodFs.content ["r", "a"])
            (some ["r"]) false).valid.filter
              fun l => decide (l ∉ (["r", "a"] :: [["r", "x"]]))) :=
  ⟨C3_depth_bound.1 goodFs 3 30 true false ["r"] [["r", "a"]]
      (goodRun.getD Sandbox.emptyResult) rfl,
    C3_depth_bound.2 goodFs ⟨1, 30, true, some ["r"], some ["r"], false⟩ 0
      ["r", "a"] 1 [["r", "x"]] rfl (by decide) (by decide) (by decide) (by decide)
      (by decide)⟩

theorem mainFinalize_skip_disjoint (X : Sandbox.TravResult) :
    (∀ q ∈ (Sandbox.mainFinalize X).skipped.maxDepth,
        q ∉ (Sandbox.mainFinalize X).analyzed.map (·.fullPath)) ∧
      (∀ q ∈ (Sandbox.mainFinalize X).skipped.maxCount,
        q ∉ (Sandbox.mainFinalize X).analyzed.map (·.fullPath)) := by
  unfold Sandbox.mainFinalize
  dsimp only
  constructor <;> intro q hq <;>
    · simp only [List.mem_filter, decide_eq_true_eq] at hq
      exact hq.2

/-- **C8.** For every completed traversal, no path in the final
`analyzed` set also appears in `skipped.maxDepth` or `skipped.maxCount`:
the post-traversal filter removes any skip entry whose path was
analyzed. -/
theorem C8_analyzed_wins (fs : FS) (M N : Nat) (fmt ns : Bool) (rootDir : AbsPath)
    (entries : List AbsPath) (r : Sandbox.TravResult)
    (h : Sandbox.mainLinked fs M N fmt ns rootDir entries = some r) :
    (∀ q ∈ r.skipped.maxDepth, q ∉ r.analyzed.map (·.fullPath)) ∧
      (∀ q ∈ r.skipped.maxCount, q ∉ r.analyzed.map (·.fullPath)) := by
  have hr := mainLinked_eq h
  subst hr
  exact mainFinalize_skip_disjoint _

/-- **C8 (witness).** In `tightRun` the skip entry `/r/b` survives the
filter and indeed is not among the analyzed paths. -/
theorem C8_analyzed_wins_witness :
    (["r", "b"] : AbsPath) ∈ (tightRun.getD Sandbox.emptyResult).skipped.maxCount ∧
      (["r", "b"] : AbsPath) ∉ (tightRun.getD Sandbox.emptyResult).analyzed.map (·.fullPath) :=
  ⟨by decide,
    (C8_analyzed_wins symFs 1 1 true false ["r"] [["r", "a"]]
        (tightRun.getD Sandbox.emptyResult) rfl).2 ["r", "b"] (by decide)⟩

/-! ## Score bounds -/

theorem jsRoundTenth_le_ten {n : Int} (h0 : 0 ≤ n) (h1 : n ≤ 100) :
    jsRoundTenth n ≤ 10 := by
  unfold jsRoundTenth
  rw [Int.fdiv_eq_ediv _ (by omega)]
  omega

theorem lineCountEval_bounds (m : Sandbox.Metrics) :
    (Sandbox.lineCountEval m).1 ≤ 10 ∧ 0 ≤ (Sandbox.lineCountEval m).1 := by
  unfold Sandbox.lineCountEval
  split_ifs <;> decide

theorem structureEval_bounds (m : Sandbox.Metrics) :
    (Sandbox.structureEval m).1 ≤ 10 ∧ 0 ≤ (Sandbox.structureEval m).1 := by
  unfold Sandbox.structureEval
  split_ifs <;> dsimp only <;> constructor <;> omega

theorem pdTierEval_bounds (m : Sandbox.Metrics) :
    (Sandbox.pdTierEval m).1 ≤ 10 ∧ 0 ≤ (Sandbox.pdTierEval m).1 := by
  unfold Sandbox.pdTierEval
  split_ifs <;> decide

theorem evalOverall_le_ten (m : Sandbox.Metrics) :
    (Sandbox.evaluateMetrics m).scores.overall ≤ 10 := by
  have hl := lineCountEval_bounds m
  have hs := structureEval_bounds m
  have hp := pdTierEval_bounds m
  rcases hle : Sandbox.lineCountEval m with ⟨lc, fbl⟩
  rcases hse : Sandbox.structureEval m with ⟨st, fbs⟩
  rcases hpe : Sandbox.pdTierEval m with ⟨pt, fbp⟩
  rw [hle] at hl
  rw [hse] at hs
  rw [hpe] at hp
  dsimp only at hl hs hp
  unfold Sandbox.evaluateMetrics
  rw [hle, hse, hpe]
  dsimp only
  split_ifs <;> dsimp only <;> exact jsRoundTenth_le_ten (by omega) (by omega)

theorem awl_score_le (fs : FS) (cfg : Sandbox.AwlConfig) :
    ∀ (fuel : Nat) (p : AbsPath) (d : Nat) (v : List AbsPath),
      ∀ e ∈ (Sandbox.awl fs cfg fuel p d v).1.analyzed,
        e.evaluation.scores.overall ≤ 10 := by
  intro fuel
  induction fuel with
  | zero => intro p d v e he; simp [Sandbox.awl] at he
  | succ n ih =>
    intro p d v
    unfold Sandbox.awl
    exact awlStep_analyzed_pred fs cfg _ p d v _
      (fun _ l w => ih l (d + 1) w)
      (fun _ => by rw [Sandbox.mkFileResult_evaluation]; exact evalOverall_le_ten _)

/-! ## The worst-score fold -/

theorem worstFrom_le (l : List Sandbox.FileResult) :
    ∀ a : Int, l.foldl (fun w x => min w x.evaluation.scores.overall) a ≤ a := by
  induction l with
  | nil => intro a; simp
  | cons c l ih =>
    intro a
    rw [List.foldl_cons]
    exact le_trans (ih _) (min_le_left _ _)

theorem worstFrom_eq (l : List Sandbox.FileResult) :
    ∀ a : Int, a ≤ 10 →
      l.foldl (fun w x => min w x.evaluation.scores.overall) a =
        min a (Sandbox.worstOf l) := by
  induction l with
  | nil => intro a h; simp [Sandbox.worstOf]; omega
  | cons c l ih =>
    intro a h
    have hW : List.foldl (fun w x => min w x.evaluation.scores.overall) 10 l ≤ 10 :=
      worstFrom_le l 10
    simp only [Sandbox.worstOf, List.foldl_cons] at ih ⊢
    rw [ih (min a c.evaluation.scores.overall) (by omega),
      ih (min (10 : Int) c.evaluation.scores.overall) (by omega)]
    omega

theorem worstOf_cons (c : Sandbox.FileResult) (l : List Sandbox.FileResult) :
    Sandbox.worstOf (c :: l) =
      min (min 10 c.evaluation.scores.overall) (Sandbox.worstOf l) := by
  have h := worstFrom_eq l (min 10 c.evaluation.scores.overall) (by omega)
  have h2 : Sandbox.worstOf (c :: l) =
      List.foldl (fun w x => min w x.evaluation.scores.overall)
        (min 10 c.evaluation.scores.overall) l := by
    simp only [Sandbox.worstOf, List.foldl_cons]
  rw [h2, h]

theorem worstOf_le_ten (l : List Sandbox.FileResult) : Sandbox.worstOf l ≤ 10 := by
  unfold Sandbox.worstOf
  exact worstFrom_le l 10

theorem worstOf_append (la lc : List Sandbox.FileResult) :
    Sandbox.worstOf (la ++ lc) = min (Sandbox.worstOf la) (Sandbox.worstOf lc) := by
  have h := worstFrom_eq lc (Sandbox.worstOf la) (worstOf_le_ten la)
  have h2 : Sandbox.worstOf (la ++ lc) =
      List.foldl (fun w x => min w x.evaluation.scores.overall) (Sandbox.worstOf la) lc := by
    simp only [Sandbox.worstOf, List.foldl_append]
  rw [h2, h]

theorem worstFrom_le_of_mem (e : Sandbox.FileResult) :
    ∀ (l : List Sandbox.FileResult) (a : Int), e ∈ l →
      l.foldl (fun w x => min w x.evaluation.scores.overall) a ≤
        e.evaluation.scores.overall := by
  intro l
  induction l with
  | nil => intro a h; simp at h
  | cons c l ih =>
    intro a h
    rw [List.foldl_cons]
    rcases List.mem_cons.mp h with rfl | h
    · exact le_trans (worstFrom_le l _) (min_le_right _ _)
    · exact ih _ h

theorem worstOf_le_of_mem (l : List Sandbox.FileResult) (e : Sandbox.FileResult)
    (he : e ∈ l) : Sandbox.worstOf l ≤ e.evaluation.scores.overall := by
  unfold Sandbox.worstOf
  exact worstFrom_le_of_mem e l 10 he

theorem worstOf_attain (l : List Sandbox.FileResult) :
    Sandbox.worstOf l < 10 →
      ∃ e ∈ l, e.evaluation.scores.overall = Sandbox.worstOf l := by
  induction l with
  | nil => intro h; exact absurd h (by decide)
  | cons c l ih =>
    intro h
    have hW := worstOf_le_ten l
    rw [worstOf_cons] at h ⊢
    have hd : min (min 10 c.evaluation.scores.overall) (Sandbox.worstOf l) =
          Sandbox.worstOf l ∨
        min (min 10 c.evaluation.scores.overall) (Sandbox.worstOf l) =
          c.evaluation.scores.overall := by
      omega
    rcases hd with hd | hd
    · rw [hd] at h ⊢
      obtain ⟨e, he, hse⟩ := ih h
      exact ⟨e, List.mem_cons_of_mem _ he, hse⟩
    · rw [hd]
      exact ⟨c, List.mem_cons_self _ _, rfl⟩

theorem firstWith_append (la lc : List Sandbox.FileResult) (s : Int) :
    Sandbox.firstWith (la ++ lc) s =
      match Sandbox.firstWith la s with
      | some e => some e
      | none => Sandbox.firstWith lc s := by
  induction la with
  | nil => simp [Sandbox.firstWith]
  | cons c la ih =>
    simp only [Sandbox.firstWith, List.cons_append, List.find?] at ih ⊢
    cases hb : (c.evaluation.scores.overall == s) with
    | false => simpa [hb] using ih
    | true => simp [hb]

theorem wfSpec_combine (la lc : List Sandbox.FileResult) :
    (if Sandbox.worstOf lc < Sandbox.worstOf la
        then Sandbox.worstOf lc else Sandbox.worstOf la) =
      Sandbox.worstOf (la ++ lc) ∧
    (if Sandbox.worstOf lc < Sandbox.worstOf la
        then Sandbox.wfSpec lc else Sandbox.wfSpec la) =
      Sandbox.wfSpec (la ++ lc) := by
  have hA := worstOf_append la lc
  have hla10 := worstOf_le_ten la
  have hlc10 := worstOf_le_ten lc
  constructor
  · rw [hA]; split_ifs <;> omega
  · split_ifs with h
    · have hcv : Sandbox.worstOf (la ++ lc) = Sandbox.worstOf lc := by rw [hA]; omega
      have hlt : Sandbox.worstOf lc < 10 := by omega
      have hnone : Sandbox.firstWith la (Sandbox.worstOf lc) = none := by
        unfold Sandbox.firstWith
        rw [List.find?_eq_none]
        intro x hx
        have h1 := worstOf_le_of_mem la x hx
        simp only [beq_iff_eq]
        intro hpx
        omega
      unfold Sandbox.wfSpec
      rw [hcv, if_pos hlt, if_pos hlt, firstWith_append, hnone]
    · have hcv : Sandbox.worstOf (la ++ lc) = Sandbox.worstOf la := by rw [hA]; omega
      unfold Sandbox.wfSpec
      rw [hcv]
      split_ifs with h2
      · rcases hfw : Sandbox.firstWith la (Sandbox.worstOf la) with _ | e0
        · exfalso
          obtain ⟨e, he, hse⟩ := worstOf_attain la h2
          unfold Sandbox.firstWith at hfw
          rw [List.find?_eq_none] at hfw
          have := hfw e he
          simp [hse] at this
        · rw [firstWith_append, hfw]
      · rfl

theorem wfSpec_singleton (e : Sandbox.FileResult) :
    Sandbox.worstOf [e] =
        (if e.evaluation.scores.overall < 10 then e.evaluation.scores.overall else 10) ∧
      Sandbox.wfSpec [e] =
        (if e.evaluation.scores.overall < 10 then some e.fullPath else none) := by
  have h1 : Sandbox.worstOf [e] = min 10 e.evaluation.scores.overall := by
    simp [Sandbox.worstOf]
  constructor
  · rw [h1]; split_ifs <;> omega
  · unfold Sandbox.wfSpec
    rw [h1]
    by_cases h : e.evaluation.scores.overall < 10
    · rw [if_pos (show min (10 : Int) e.evaluation.scores.overall < 10 by omega), if_pos h]
      have h2 : min (10 : Int) e.evaluation.scores.overall = e.evaluation.scores.overall := by
        omega
      rw [h2]
      simp [Sandbox.firstWith, List.find?]
    · rw [if_neg (show ¬ min (10 : Int) e.evaluation.scores.overall < 10 by omega), if_neg h]

/-! ## Preservation of the worst-score invariant -/

theorem inv_empty : Sandbox.SummaryInv Sandbox.emptyResult := by
  unfold Sandbox.SummaryInv
  exact ⟨by decide, by decide⟩

theorem inv_baseResult (fs : FS) (cfg : Sandbox.AwlConfig) (p : AbsPath) (d : Nat) :
    Sandbox.SummaryInv (Sandbox.baseResult fs cfg p d) := by
  unfold Sandbox.SummaryInv Sandbox.baseResult
  dsimp only [Sandbox.emptyResult]
  constructor
  · rw [(wfSpec_singleton (Sandbox.mkFileResult fs cfg p d)).1]
  · rw [(wfSpec_singleton (Sandbox.mkFileResult fs cfg p d)).2,
      Sandbox.mkFileResult_fullPath]

theorem inv_finishAverage (r : Sandbox.TravResult) (h : Sandbox.SummaryInv r) :
    Sandbox.SummaryInv (Sandbox.finishAverage r) := by
  unfold Sandbox.SummaryInv at h ⊢
  rw [Sandbox.finishAverage_analyzed, Sandbox.finishAverage_worstScore,
    Sandbox.finishAverage_worstFile]
  exact h

theorem inv_addLinkSkips (r : Sandbox.TravResult) (lr : Sandbox.ExtractResult)
    (h : Sandbox.SummaryInv r) : Sandbox.SummaryInv (Sandbox.addLinkSkips r lr) := by
  unfold Sandbox.SummaryInv at h ⊢
  rw [Sandbox.addLinkSkips_analyzed, Sandbox.addLinkSkips_summary]
  exact h

theorem inv_rootFilterIte (c : Prop) [Decidable c] (r : Sandbox.TravResult)
    (h : Sandbox.SummaryInv r) :
    Sandbox.SummaryInv (if c then Sandbox.rootScopeFilter r else r) := by
  unfold Sandbox.SummaryInv at h ⊢
  rw [Sandbox.rootFilterIte_analyzed, Sandbox.rootFilterIte_summary]
  exact h

theorem inv_merge (acc child : Sandbox.TravResult)
    (ha : Sandbox.SummaryInv acc) (hc : Sandbox.SummaryInv child) :
    Sandbox.SummaryInv (Sandbox.mergeResult acc child) := by
  unfold Sandbox.SummaryInv at ha hc
  obtain ⟨ha1, ha2⟩ := ha
  obtain ⟨hc1, hc2⟩ := hc
  have h := wfSpec_combine acc.analyzed child.analyzed
  unfold Sandbox.SummaryInv Sandbox.mergeResult
  dsimp only
  rw [ha1, hc1, ha2, hc2]
  exact h

theorem inv_mainMerge (acc child : Sandbox.TravResult)
    (ha : Sandbox.SummaryInv acc) (hc : Sandbox.SummaryInv child) :
    Sandbox.SummaryInv (Sandbox.mainMerge acc child) := by
  unfold Sandbox.SummaryInv at ha hc
  obtain ⟨ha1, ha2⟩ := ha
  obtain ⟨hc1, hc2⟩ := hc
  have h := wfSpec_combine acc.analyzed child.analyzed
  unfold Sandbox.SummaryInv Sandbox.mainMerge
  dsimp only
  rw [ha1, hc1, ha2, hc2]
  exact h

theorem linkLoop_inv
    (step : AbsPath → List AbsPath → Sandbox.TravResult × List AbsPath) (N : Nat)
    (hstep : ∀ l w, Sandbox.SummaryInv (step l w).1) :
    ∀ (ls : List AbsPath) (acc : Sandbox.TravResult) (v : List AbsPath),
      Sandbox.SummaryInv acc →
      Sandbox.SummaryInv (Sandbox.linkLoop step N ls acc v).1 := by
  intro ls
  induction ls with
  | nil =>
    intro acc v h
    simpa [Sandbox.linkLoop] using h
  | cons l ls ih =>
    intro acc v h
    unfold Sandbox.linkLoop
    split_ifs with hb
    · exact ih _ _ h
    · exact ih _ _ (inv_merge _ _ h (hstep l v))

theorem sandboxGate_summary {fs : FS} {cfg : Sandbox.AwlConfig} {p : AbsPath}
    {r : Sandbox.TravResult} (h : Sandbox.sandboxGate fs cfg p = some r) :
    r.summary = Sandbox.emptyResult.summary := by
  unfold Sandbox.sandboxGate at h
  split at h
  · exact absurd h (by simp)
  · dsimp only at h
    split_ifs at h with h1 h2 <;> cases h <;> rfl

theorem awlStep_inv (fs : FS) (cfg : Sandbox.AwlConfig)
    (recurse : AbsPath → List AbsPath → Sandbox.TravResult × List AbsPath)
    (p : AbsPath) (d : Nat) (v : List AbsPath)
    (hrec : ∀ l w, Sandbox.SummaryInv (recurse l w).1) :
    Sandbox.SummaryInv (Sandbox.awlStep fs cfg recurse p d v).1 := by
  have hcore : Sandbox.SummaryInv (Sandbox.awlCore fs cfg recurse p d v).1 := by
    unfold Sandbox.awlCore
    dsimp only
    apply inv_rootFilterIte
    apply inv_finishAverage
    split_ifs with hd hdm
    · exact linkLoop_inv recurse cfg.maxCount hrec _ _ _
        (inv_addLinkSkips _ _ (inv_baseResult fs cfg p d))
    · exact inv_addLinkSkips (Sandbox.baseResult fs cfg p d)
        (Sandbox.extractInternalLinks fs p (fs.content p) cfg.rootDir cfg.noSymlinks)
        (inv_baseResult fs cfg p d)
    · exact inv_baseResult fs cfg p d
  unfold Sandbox.awlStep
  split_ifs with h1 h2 h3
  · exact inv_empty
  · exact inv_empty
  · exact inv_empty
  · split
    · rename_i r hg
      unfold Sandbox.SummaryInv
      rw [Sandbox.sandboxGate_analyzed hg, sandboxGate_summary hg]
      exact ⟨by decide, by decide⟩
    · exact hcore

theorem awl_inv (fs : FS) (cfg : Sandbox.AwlConfig) :
    ∀ (fuel : Nat) (p : AbsPath) (d : Nat) (v : List AbsPath),
      Sandbox.SummaryInv (Sandbox.awl fs cfg fuel p d v).1 := by
  intro fuel
  induction fuel with
  | zero => intro p d v; unfold Sandbox.awl; exact inv_empty
  | succ n ih =>
    intro p d v
    unfold Sandbox.awl
    exact awlStep_inv fs cfg _ p d v fun l w => ih l (d + 1) w

theorem mainFold_inv (fs : FS) (cfg : Sandbox.AwlConfig) :
    ∀ (entries : List AbsPath) (st : Sandbox.TravResult × List AbsPath),
      Sandbox.SummaryInv st.1 →
      Sandbox.SummaryInv ((entries.foldl (Sandbox.mainStep fs cfg) st).1) := by
  intro entries
  induction entries with
  | nil => intro st h; simpa using h
  | cons a as ih =>
    intro st h
    rw [List.foldl_cons]
    refine ih _ ?_
    unfold Sandbox.mainStep
    dsimp only
    exact inv_mainMerge _ _ h (awl_inv fs cfg (cfg.maxDepth + 1) a 0 st.2)

theorem mainFinalize_sum (r : Sandbox.TravResult) :
    (Sandbox.mainFinalize r).summary.worstScore = r.summary.worstScore ∧
      (Sandbox.mainFinalize r).summary.worstFile = r.summary.worstFile ∧
      (Sandbox.mainFinalize r).summary.totalAnalyzed = r.analyzed.length ∧
      (0 < r.analyzed.length →
        (Sandbox.mainFinalize r).summary.averageScore = Sandbox.averageOf r.analyzed) := by
  unfold Sandbox.mainFinalize
  dsimp only
  split_ifs with h
  · exact ⟨rfl, rfl, rfl, fun _ => rfl⟩
  · exact ⟨rfl, rfl, rfl, fun h2 => absurd h2 h⟩

theorem mainLinked_summary (fs : FS) (M N : Nat) (fmt ns : Bool) (rootDir : AbsPath)
    (entries : List AbsPath) (r : Sandbox.TravResult)
    (h : Sandbox.mainLinked fs M N fmt ns rootDir entries = some r) :
    r.summary.worstScore = Sandbox.worstOf r.analyzed ∧
      r.summary.worstFile = Sandbox.wfSpec r.analyzed ∧
      r.summary.totalAnalyzed = r.analyzed.length ∧
      (0 < r.analyzed.length → r.summary.averageScore = Sandbox.averageOf r.analyzed) ∧
      (∀ e ∈ r.analyzed, e.evaluation.scores.overall ≤ 10) := by
  have hr := mainLinked_eq h
  subst hr
  have hinv := mainFold_inv fs ⟨M, N, fmt, some rootDir, some (fs.real rootDir), ns⟩
    entries (Sandbox.emptyResult, ([] : List AbsPath)) inv_empty
  unfold Sandbox.SummaryInv at hinv
  have hfin := mainFinalize_sum
    ((entries.foldl
      (Sandbox.mainStep fs ⟨M, N, fmt, some rootDir, some (fs.real rootDir), ns⟩)
      (Sandbox.emptyResult, ([] : List AbsPath))).1)
  refine ⟨?_, ?_, ?_, ?_, ?_⟩
  · rw [Sandbox.mainFinalize_analyzed, hfin.1]
    exact hinv.1
  · rw [Sandbox.mainFinalize_analyzed, hfin.2.1]
    exact hinv.2
  · rw [Sandbox.mainFinalize_analyzed]
    exact hfin.2.2.1
  · rw [Sandbox.mainFinalize_analyzed]
    exact fun hpos => hfin.2.2.2 hpos
  · intro e he
    rw [Sandbox.mainFinalize_analyzed] at he
    refine mainFold_analyzed_pred fs _ (fun e => e.evaluation.scores.overall ≤ 10)
      ?_ entries _ (by simp) e he
    intro p v e' he'
    unfold Sandbox.analyzeWithLinks at he'
    exact awl_score_le fs ⟨M, N, fmt, some rootDir, some (fs.real rootDir), ns⟩
      _ p 0 v e' he'

/-- **C9 (amended).** For every traversal run whose `analyzed` list is
non-empty, `summary.worstScore` is the minimum overall score among the
analyzed entries (lower bound plus attainment); `summary.worstFile` is
the canonical path of the first entry attaining that minimum when the
minimum is strictly below the initial 10, and `null` otherwise (in
particular when every entry scores a perfect 10); and
`summary.averageScore` and `summary.totalAnalyzed` are the rounded mean
of the overall scores and the number of analyzed entries. -/
theorem C9_summary_fields (fs : FS) (M N : Nat) (fmt ns : Bool) (rootDir : AbsPath)
    (entries : List AbsPath) (r : Sandbox.TravResult)
    (h : Sandbox.mainLinked fs M N fmt ns rootDir entries = some r)
    (hne : r.analyzed ≠ []) :
    (∀ e ∈ r.analyzed, r.summary.worstScore ≤ e.evaluation.scores.overall) ∧
      (∃ e ∈ r.analyzed, e.evaluation.scores.overall = r.summary.worstScore) ∧
      (r.summary.worstScore < 10 →
        r.summary.worstFile =
          (Sandbox.firstWith r.analyzed r.summary.worstScore).map (·.fullPath)) ∧
      (¬ r.summary.worstScore < 10 → r.summary.worstFile = none) ∧
      r.summary.totalAnalyzed = r.analyzed.length ∧
      r.summary.averageScore = Sandbox.averageOf r.analyzed := by
  obtain ⟨hws, hwf, hta, havg, hble⟩ := mainLinked_summary fs M N fmt ns rootDir entries r h
  refine ⟨?_, ?_, ?_, ?_, hta, havg (List.length_pos.mpr hne)⟩
  · intro e he
    rw [hws]
    exact worstOf_le_of_mem _ e he
  · by_cases hlt : Sandbox.worstOf r.analyzed < 10
    · obtain ⟨e, he, hse⟩ := worstOf_attain _ hlt
      exact ⟨e, he, by rw [hws, hse]⟩
    · obtain ⟨e, he⟩ := List.exists_mem_of_ne_nil _ hne
      have h1 := worstOf_le_of_mem r.analyzed e he
      have h2 := hble e he
      refine ⟨e, he, ?_⟩
      rw [hws]
      omega
  · intro hlt
    rw [hws] at hlt ⊢
    rw [hwf]
    unfold Sandbox.wfSpec
    rw [if_pos hlt]
  · intro hge
    rw [hws] at hge
    rw [hwf]
    unfold Sandbox.wfSpec
    rw [if_neg hge]

/-- **C9 (witness).** In the `goodFs` run the single analyzed entry
`/r/a` attains the reported worst score. -/
theorem C9_summary_fields_witness :
    ∃ e ∈ (goodRun.getD Sandbox.emptyResult).analyzed,
      e.evaluation.scores.overall =
        (goodRun.getD Sandbox.emptyResult).summary.worstScore :=
  (C9_summary_fields goodFs 3 30 true false ["r"] [["r", "a"]]
      (goodRun.getD Sandbox.emptyResult) rfl (by decide)).2.1

/-- **C9 (counterexample).** In the `goodFs` run the `analyzed` list is
the non-empty `[/r/a]`, the minimum overall score 10 is attained by that
entry — yet `summary.worstFile` is `null`, not the canonical path of the
first minimum attainer: the strict-`<` update never fires against the
initial worst score 10. -/
theorem C9_counterexample :
    (goodRun.getD Sandbox.emptyResult).analyzed.map (·.fullPath) = [["r", "a"]] ∧
      (goodRun.getD Sandbox.emptyResult).summary.worstScore = 10 ∧
      (∃ e ∈ (goodRun.getD Sandbox.emptyResult).analyzed,
        e.evaluation.scores.overall = 10) ∧
      (goodRun.getD Sandbox.emptyResult).summary.worstFile = none := by
  refine ⟨by decide, by decide, ?_, by decide⟩
  decide
